import Mathlib

/-!
# jquery.notification: permission negotiation and notification lifecycle

A shallow embedding of `src/jquery.notification.js`.

The program is event driven and single threaded.  It is embedded as a
deterministic transition system:

* `State` holds the two static fields `Notification.queue` and
  `Notification.isAccessRequested`, the heap of `Notification` objects, the
  pending one-shot document click listeners, the intervals and timers that the
  code registered, and the ordered log of every call the code makes to its
  environment (platform calls and calls of caller-supplied functions).
* the environment is given by the events: every call of
  `window.webkitNotifications.checkPermission()` takes its answer from the
  event (or script action) that triggers it, and the presence of
  `window.webkitNotifications` is an argument of every construction.
* caller code (the body of a caller callback, or code run in a turn of its
  own) is a `Script`: a sequence of constructions, `show()` and `cancel()`
  calls.  Objects are referred to by their allocation index.

What the model does not cover: exceptions (no script action throws), mutation
of the options object by the caller after the construction, and timeouts that
are not natural numbers of milliseconds.
-/

namespace JqueryNotification

/-! ## Data model -/

/-- The `options` argument of the constructor (source lines 16-29).  An omitted
property is `none`; a function-valued property is the identity of the function. -/
structure Options where
  url : Option String
  icon : Option String
  title : Option String
  content : Option String
  replaceId : Option String
  onclick : Option Nat
  onclose : Option Nat
  ondisplay : Option Nat
  onerror : Option Nat
  autoclose : Option Bool
  timeout : Option Nat
deriving DecidableEq, Repr

/-- The options object `{}`. -/
def Options.empty : Options :=
  ⟨none, none, none, none, none, none, none, none, none, none, none⟩

/-- JavaScript truthiness of an optional string: `undefined` and `""` are falsy. -/
def truthyString : Option String → Bool
  | none => false
  | some v => !(v == "")

/-- JavaScript truthiness of an optional number: `undefined` and `0` are falsy. -/
def truthyNumber : Option Nat → Bool
  | none => false
  | some 0 => false
  | some (_ + 1) => true

/-- JavaScript truthiness of an optional boolean: `undefined` and `false` are falsy. -/
def truthyBool : Option Bool → Bool
  | none => false
  | some b => b

/-- Source line 57: `options.autoclose = options.autoclose || true`. -/
def Options.defaults (o : Options) : Options :=
  { o with autoclose := some (truthyBool o.autoclose || true) }

/-- The kinds of instance events the constructor subscribes to. -/
inductive EventKind
  | click | close | display | error
deriving DecidableEq, Repr

/-- A function registered with `addEventListener`: a caller-supplied function,
or the internal `function () { self.cancel(); }` of source lines 83-85. -/
inductive Listener
  | user (fn : Nat)
  | selfCancel
deriving DecidableEq, Repr

/-- The two content modes of a platform instance. -/
inductive Content
  | html (url : Option String)
  | structured (icon title content : Option String)
deriving DecidableEq, Repr

/-- A platform instance as far as the code touches it. -/
structure Instance where
  content : Content
  listeners : List (EventKind × Listener)
  replaceId : String
deriving DecidableEq, Repr

/-- A `Notification` object.  `timeout = none` is `Infinity`. -/
structure Notification where
  notificationStatus : Nat
  isShowCalled : Bool
  timeout : Option Nat
  instance_ : Option Instance
deriving DecidableEq, Repr

/-- The prototype values of source lines 113-116. -/
def Notification.proto : Notification := ⟨1, false, none, none⟩

/-- Caller code.  `notification supported status options callback onTrue onFalse`
is a call `$.notification(options, callback)` made while
`window.webkitNotifications` is present (`supported`) and its
`checkPermission()` answers `status`; `callback = none` is an omitted callback,
otherwise `onTrue` / `onFalse` is what the callback does when it is called with
`true` / `false`. -/
inductive Script
  | done
  | show (self : Nat) (next : Script)
  | cancel (self : Nat) (next : Script)
  | notification (supported : Bool) (status : Nat) (options : Options)
      (callback : Option Nat) (onTrue onFalse : Script) (next : Script)
deriving DecidableEq, Repr

/-- The closure passed to `monitorPermission` at source line 71: it captures
`self`, `options` (after line 57) and `callback`. -/
structure Continuation where
  self : Nat
  options : Options
  callback : Option Nat
  onTrue : Script
  onFalse : Script
deriving DecidableEq, Repr

/-- Every call the code makes to its environment.  `callback self fn arg` is the
call of the callback of the notification object `self` (`fn = none`: `$.noop`). -/
inductive Effect
  | callback (self : Nat) (fn : Option Nat) (arg : Bool)
  | createHTMLNotification (self : Nat) (url : Option String)
  | createNotification (self : Nat) (icon title content : Option String)
  | addEventListener (self : Nat) (kind : EventKind) (l : Listener)
  | instanceShow (self : Nat)
  | instanceCancel (self : Nat)
  | setTimeout (self : Nat) (delay : Nat)
  | documentOne
  | requestPermission
  | setInterval (self : Nat)
  | clearInterval (id : Nat)
  | listener (fn : Nat)
deriving DecidableEq, Repr

/-- The state of the page. -/
structure State where
  queue : List Continuation
  isAccessRequested : Bool
  objects : Nat → Notification
  allocated : Nat
  documentClick : Nat
  intervals : List (Nat × Bool)
  timers : List (Nat × Nat)
  log : List Effect

/-- The page after the script of `jquery.notification.js` has been loaded
(source lines 101-102). -/
def State.init : State :=
  ⟨[], false, fun _ => Notification.proto, 0, 0, [], [], []⟩

/-- Record a call to the environment. -/
def State.emit (s : State) (e : Effect) : State :=
  { s with log := s.log ++ [e] }

/-- Assign fields of the object `self`. -/
def State.modify (s : State) (self : Nat) (f : Notification → Notification) : State :=
  { s with objects := Function.update s.objects self (f (s.objects self)) }

/-! ## The methods -/

/-- `Notification.prototype.cancel` (source lines 140-146).  The result is the
returned object (`return this`, line 145) and the state. -/
def Notification.cancel (self : Nat) (s : State) : Nat × State :=
  (self,
    match (s.objects self).instance_ with
    | some _ => s.emit (.instanceCancel self)
    | none => s)

/-- `Notification.prototype.show` (source lines 121-135).  The result is the
returned object (`return this`, line 134) and the state. -/
def Notification.show (self : Nat) (s : State) : Nat × State :=
  (self,
    match (s.objects self).instance_ with
    | some _ =>
      let s1 := s.emit (.instanceShow self)
      match (s.objects self).timeout with
      | some t =>
        { s1 with timers := s1.timers ++ [(self, t)], log := s1.log ++ [.setTimeout self t] }
      | none => s1
    | none => s.modify self (fun o => { o with isShowCalled := true }))

/-- `Notification.prototype.create` (source lines 155-167): the platform call is
chosen by the number of arguments. -/
def Notification.create (self : Nat) (arguments : List (Option String)) (s : State) :
    Instance × State :=
  if arguments.length = 1 then
    (⟨.html (arguments.getD 0 none), [], ""⟩,
      s.emit (.createHTMLNotification self (arguments.getD 0 none)))
  else
    (⟨.structured (arguments.getD 0 none) (arguments.getD 1 none) (arguments.getD 2 none), [], ""⟩,
      s.emit (.createNotification self (arguments.getD 0 none) (arguments.getD 1 none)
        (arguments.getD 2 none)))

/-- A call `self.instance.addEventListener(kind, l, false)`. -/
def addEventListener (self : Nat) (kind : EventKind) (l : Listener) (s : State) : State :=
  (s.modify self (fun o =>
    { o with instance_ :=
        (o.instance_.map fun i => { i with listeners := i.listeners ++ [(kind, l)] }) })).emit
    (.addEventListener self kind l)

/-- A statement `options.f && self.instance.addEventListener(kind, options.f, false)`. -/
def addOptional (self : Nat) (kind : EventKind) (f : Option Nat) (s : State) : State :=
  match f with
  | some fn => addEventListener self kind (.user fn) s
  | none => s

/-- Source line 91: `options.replaceId || ""`. -/
def replaceIdOr (r : Option String) : String :=
  if truthyString r then r.getD "" else ""

/-- Source line 92: `options.timeout || Infinity`. -/
def timeoutOr (t : Option Nat) : Option Nat :=
  if truthyNumber t then t else none

/-- The closure of source lines 71-98, up to its call of `callback`: in both
branches the call `callback(isNotificationsAllowed)` is the last statement. -/
def continuation (k : Continuation) (isNotificationsAllowed : Bool) (s : State) : State :=
  if !isNotificationsAllowed then s
  else
    let r := if truthyString k.options.url then
        Notification.create k.self [k.options.url] s
      else
        Notification.create k.self [k.options.icon, k.options.title, k.options.content] s
    let s1 := r.2.modify k.self (fun o => { o with instance_ := some r.1 })
    let s2 := addOptional k.self .click k.options.onclick s1
    let s3 := if truthyBool k.options.autoclose then
        addEventListener k.self .click .selfCancel s2
      else s2
    let s4 := addOptional k.self .close k.options.onclose s3
    let s5 := addOptional k.self .display k.options.ondisplay s4
    let s6 := addOptional k.self .error k.options.onerror s5
    let s7 := s6.modify k.self (fun o =>
      { o with instance_ :=
          (o.instance_.map fun i => { i with replaceId := replaceIdOr k.options.replaceId }) })
    let s8 := s7.modify k.self (fun o => { o with timeout := timeoutOr k.options.timeout })
    if (s8.objects k.self).isShowCalled then (Notification.show k.self s8).2 else s8

/-- Source lines 187-200 of `monitorPermission`: the start-up sequence. -/
def startup (self : Nat) (s : State) : State :=
  { s with
    isAccessRequested := true
    documentClick := s.documentClick + 1
    intervals := s.intervals ++ [(self, true)]
    log := s.log ++ [.documentOne, .setInterval self] }

/-- `Notification.prototype.monitorPermission` (source lines 174-201), up to the
call of `callback`: the result is the state and, when `callback` is called at
once (line 183), its argument. -/
def monitorPermission (self : Nat) (callback : Continuation) (s : State) :
    State × Option Bool :=
  if (s.objects self).notificationStatus = 1 then
    let s1 := { s with queue := s.queue ++ [callback] }
    if s1.isAccessRequested then (s1, none) else (startup self s1, none)
  else
    (s, some ((s.objects self).notificationStatus == 0))

/-- The constructor (source lines 52-99), up to the call of the caller's
callback: the result is the state and, when the callback is called inside the
constructor, its argument.  The new object is `s.allocated`. -/
def construct (supported : Bool) (status : Nat) (options : Options) (callback : Option Nat)
    (onTrue onFalse : Script) (s : State) : State × Option Bool :=
  let self := s.allocated
  let s0 : State :=
    { s with allocated := self + 1, objects := Function.update s.objects self Notification.proto }
  if !supported then (s0, some false)
  else
    let s1 := s0.modify self (fun o => { o with notificationStatus := status })
    let k : Continuation := ⟨self, options.defaults, callback, onTrue, onFalse⟩
    match monitorPermission self k s1 with
    | (s2, none) => (s2, none)
    | (s2, some b) => (continuation k b s2, some b)

/-- Run caller code. -/
def runScript : Script → State → State
  | .done, s => s
  | .show self next, s => runScript next (Notification.show self s).2
  | .cancel self next, s => runScript next (Notification.cancel self s).2
  | .notification supported status options callback onTrue onFalse next, s =>
    match construct supported status options callback onTrue onFalse s with
    | (s1, none) => runScript next s1
    | (s1, some b) =>
      let s2 := s1.emit (.callback s.allocated callback b)
      match callback, b with
      | none, _ => runScript next s2
      | some _, true => runScript next (runScript onTrue s2)
      | some _, false => runScript next (runScript onFalse s2)

/-- What the caller's callback does when it is called with `b`. -/
def callbackBody (callback : Option Nat) (onTrue onFalse : Script) (b : Bool) (s : State) : State :=
  match callback, b with
  | none, _ => s
  | some _, true => runScript onTrue s
  | some _, false => runScript onFalse s

/-- The closure of source lines 71-98 up to and including its call of the
caller's callback, before the callback runs. -/
def called (k : Continuation) (isNotificationsAllowed : Bool) (s : State) : State :=
  (continuation k isNotificationsAllowed s).emit
    (.callback k.self k.callback isNotificationsAllowed)

/-- A call `Notification.queue[i](isNotificationsAllowed)`: the closure of
source lines 71-98 and then what the caller's callback does. -/
def runContinuation (k : Continuation) (isNotificationsAllowed : Bool) (s : State) : State :=
  callbackBody k.callback k.onTrue k.onFalse isNotificationsAllowed
    (called k isNotificationsAllowed s)

/-- The loop of `Notification.callQueue` (source lines 104-106) with `n`
iterations left, at index `i`. -/
def callQueueLoop (isNotificationsAllowed : Bool) : Nat → Nat → State → State
  | 0, _, s => s
  | n + 1, i, s =>
    match s.queue[i]? with
    | none => s
    | some k =>
      callQueueLoop isNotificationsAllowed n (i + 1) (runContinuation k isNotificationsAllowed s)

/-- `Notification.callQueue` (source lines 103-108). -/
def callQueue (isNotificationsAllowed : Bool) (s : State) : State :=
  let c := s.queue.length
  let s1 := callQueueLoop isNotificationsAllowed c 0 s
  { s1 with queue := [] }

/-- The interval callback of source lines 193-200, for the interval `id`, when
`checkPermission()` answers `status`.  An interval that is not active does not fire. -/
def tick (id status : Nat) (s : State) : State :=
  match s.intervals[id]? with
  | some (self, true) =>
    let s1 := s.modify self (fun o => { o with notificationStatus := status })
    if status = 1 then s1
    else
      let s2 : State :=
        { s1 with
          intervals := s1.intervals.set id (self, false)
          log := s1.log ++ [.clearInterval id] }
      callQueue (status == 0) s2
  | _ => s

/-- A click on the document: every pending one-shot listener of line 189 runs
`requestPermission()` and is removed. -/
def documentClicked (s : State) : State :=
  { s with
    documentClick := 0
    log := s.log ++ List.replicate s.documentClick .requestPermission }

/-- The platform dispatches an event of kind `kind` on the instance of `self`. -/
def dispatch (self : Nat) (kind : EventKind) (s : State) : State :=
  match (s.objects self).instance_ with
  | none => s
  | some i =>
    (i.listeners.filter (fun l => l.1 = kind)).foldl
      (fun acc l =>
        match l.2 with
        | .user fn => acc.emit (.listener fn)
        | .selfCancel => (Notification.cancel self acc).2)
      s

/-- The `i`-th pending timer of source line 126 fires. -/
def timerFired (i : Nat) (s : State) : State :=
  match s.timers[i]? with
  | none => s
  | some (self, _) => (Notification.cancel self { s with timers := s.timers.eraseIdx i }).2

/-- One turn of the event loop. -/
inductive Event
  | run (code : Script)
  | tick (id status : Nat)
  | documentClick
  | dispatch (self : Nat) (kind : EventKind)
  | timer (i : Nat)
deriving DecidableEq, Repr

/-- The effect of one turn. -/
def step (s : State) : Event → State
  | .run code => runScript code s
  | .tick id status => tick id status s
  | .documentClick => documentClicked s
  | .dispatch self kind => dispatch self kind s
  | .timer i => timerFired i s

/-- The effect of a sequence of turns. -/
def runTrace (trace : List Event) (s : State) : State :=
  trace.foldl step s

/-! ## Derived descriptions used in the statements -/

/-- The platform creation call of the closure at source lines 77-79. -/
def creationOf (self : Nat) (o : Options) : Effect :=
  if truthyString o.url then .createHTMLNotification self o.url
  else .createNotification self o.icon o.title o.content

/-- The content of the instance created at source lines 77-79. -/
def contentOf (o : Options) : Content :=
  if truthyString o.url then .html o.url else .structured o.icon o.title o.content

/-- The listener list of one statement `options.f && ...addEventListener(kind, options.f, false)`. -/
def optionalListener (kind : EventKind) (f : Option Nat) : List (EventKind × Listener) :=
  match f with
  | some fn => [(kind, .user fn)]
  | none => []

/-- The listeners attached at source lines 81-89, in order. -/
def listenersOf (o : Options) : List (EventKind × Listener) :=
  optionalListener .click o.onclick ++
  (if truthyBool o.autoclose then [(.click, .selfCancel)] else []) ++
  optionalListener .close o.onclose ++
  optionalListener .display o.ondisplay ++
  optionalListener .error o.onerror

/-- The calls a `show()` makes on an object. -/
def showEffects (self : Nat) (o : Notification) : List Effect :=
  match o.instance_ with
  | none => []
  | some _ =>
    match o.timeout with
    | some t => [.instanceShow self, .setTimeout self t]
    | none => [.instanceShow self]

/-- The timers a `show()` starts on an object. -/
def showTimers (self : Nat) (o : Notification) : List (Nat × Nat) :=
  match o.instance_, o.timeout with
  | some _, some t => [(self, t)]
  | _, _ => []

/-- The object after the closure of source lines 71-98 ran with `true`, before
the deferred `show()`. -/
def grantedObject (k : Continuation) (o : Notification) : Notification :=
  { o with
    instance_ := some ⟨contentOf k.options, listenersOf k.options, replaceIdOr k.options.replaceId⟩
    timeout := timeoutOr k.options.timeout }

/-- The constructor up to and including the call of the caller's callback
inside it (if there is one), before the callback runs. -/
def constructed (supported : Bool) (status : Nat) (options : Options) (callback : Option Nat)
    (onTrue onFalse : Script) (s : State) : State :=
  match construct supported status options callback onTrue onFalse s with
  | (s1, none) => s1
  | (s1, some b) => s1.emit (.callback s.allocated callback b)

/-- The state after attaching the listeners `ls` to the instance of `x`. -/
def attach (x : Nat) (ls : List (EventKind × Listener)) (s : State) : State :=
  { s with
    objects := Function.update s.objects x
      { s.objects x with
        instance_ := ((s.objects x).instance_.map fun i => { i with listeners := i.listeners ++ ls }) }
    log := s.log ++ ls.map fun l => .addEventListener x l.1 l.2 }

/-- The argument of the call of the caller's callback inside the constructor,
if there is one: `false` without the platform capability (source line 63), none
while the permission is undecided, `status === 0` otherwise (source line 183). -/
def calledWith (supported : Bool) (status : Nat) : Option Bool :=
  if !supported then some false else if status = 1 then none else some (status == 0)

/-- The steps every turn of the event loop is made of. -/
inductive Atom : State → State → Prop
  | shown (x : Nat) (s : State) : Atom s (Notification.show x s).2
  | cancelled (x : Nat) (s : State) : Atom s (Notification.cancel x s).2
  | built (supported : Bool) (status : Nat) (options : Options) (callback : Option Nat)
      (onTrue onFalse : Script) (s : State) :
      Atom s (constructed supported status options callback onTrue onFalse s)
  | called (k : Continuation) (b : Bool) (s : State) (h : k ∈ s.queue) : Atom s (called k b s)
  | polled (id self status : Nat) (s : State) (h : s.intervals[id]? = some (self, true)) :
      Atom s (s.modify self (fun o => { o with notificationStatus := status }))
  | cleared (id self : Nat) (s : State) (h : s.intervals[id]? = some (self, true)) :
      Atom s { s with
        intervals := s.intervals.set id (self, false)
        log := s.log ++ [.clearInterval id] }
  | drained (s : State) : Atom s { s with queue := [] }
  | clicked (s : State) : Atom s (documentClicked s)
  | heard (fn : Nat) (s : State) : Atom s (s.emit (.listener fn))
  | expired (i : Nat) (s : State) : Atom s { s with timers := s.timers.eraseIdx i }

/-- The object whose platform instance an effect is a call on or for. -/
def Effect.platform : Effect → Option Nat
  | .createHTMLNotification self _ => some self
  | .createNotification self _ _ _ => some self
  | .addEventListener self _ _ => some self
  | .instanceShow self => some self
  | .instanceCancel self => some self
  | .setTimeout self _ => some self
  | _ => none

/-- The object an effect creates the platform instance of. -/
def Effect.creation : Effect → Option Nat
  | .createHTMLNotification self _ => some self
  | .createNotification self _ _ _ => some self
  | _ => none

/-- The platform creation calls for the object `h` in a log, in order. -/
def creations (h : Nat) (log : List Effect) : List Effect :=
  log.filter fun e => e.creation = some h

/-- The notification object an effect belongs to: the object of a platform
instance call, or the object whose callback is called. -/
def Effect.subject : Effect → Option Nat
  | .callback self _ _ => some self
  | e => e.platform

/-- The part of a log that belongs to the object `h`, in order. -/
def about (h : Nat) (log : List Effect) : List Effect :=
  log.filter fun e => e.subject = some h

/-- The calls of the callbacks of the objects below `n` in a log, in order. -/
def callbacksBelow (n : Nat) (log : List Effect) : List (Nat × Option Nat × Bool) :=
  log.filterMap fun e =>
    match e with
    | .callback self fn b => if self < n then some (self, fn, b) else none
    | _ => none

/-- Allocation of a `Notification` object whose `notificationStatus` becomes
`status` (source lines 52-59 and 70; the prototype has status 1). -/
def State.alloc (s : State) (status : Nat) : State :=
  { s with
    allocated := s.allocated + 1
    objects := Function.update s.objects s.allocated
      { Notification.proto with notificationStatus := status } }

/-- The number of `setInterval` calls in a log. -/
def intervalStarts (log : List Effect) : Nat :=
  (log.filter fun e => match e with | .setInterval _ => true | _ => false).length

/-- The effects of the start-up sequence of `monitorPermission` and of the
one-shot document click listener it registers. -/
def Effect.startup : Effect → Bool
  | .documentOne => true
  | .requestPermission => true
  | .setInterval _ => true
  | _ => false

/-- The start-up sequence has run at most once, and exactly when
`Notification.isAccessRequested` is set: while the flag is clear nothing of it
has happened; once it is set, one listener was registered, one interval was
started, and the listener is either still pending or has called
`requestPermission()` once. -/
def StartedOnce (s : State) : Prop :=
  (s.isAccessRequested = false →
    s.documentClick = 0 ∧ s.log.count .documentOne = 0 ∧ s.log.count .requestPermission = 0 ∧
    intervalStarts s.log = 0 ∧ s.intervals.length = 0) ∧
  (s.isAccessRequested = true →
    s.log.count .documentOne = 1 ∧ intervalStarts s.log = 1 ∧
    s.documentClick + s.log.count .requestPermission = 1 ∧ s.intervals.length = 1)

/-- Where the effect of an atom can be seen: only a fresh object or an object
with a queued continuation gets or changes an instance or has its callback
called, and only an object with an instance receives further platform calls. -/
structure Footprint (s t : State) : Prop where
  allocated : s.allocated ≤ t.allocated
  instances : ∀ h, (t.objects h).instance_ ≠ (s.objects h).instance_ →
    (h = s.allocated ∧ t.allocated = s.allocated + 1) ∨ ∃ k ∈ s.queue, k.self = h
  queue : ∀ k ∈ t.queue, k ∈ s.queue ∨ (k.self = s.allocated ∧ t.allocated = s.allocated + 1)
  log : ∃ ext, t.log = s.log ++ ext ∧ ∀ e ∈ ext, ∀ h, e.subject = some h →
    (h = s.allocated ∧ t.allocated = s.allocated + 1) ∨ (∃ k ∈ s.queue, k.self = h) ∨
    ((s.objects h).instance_ ≠ none ∧ e.platform = some h ∧ e.creation = none)

/-- What holds of every state the page can reach: queued continuations and
logged effects belong to allocated objects, and no unallocated object has an
instance. -/
structure WellFormed (s : State) : Prop where
  queue : ∀ k ∈ s.queue, k.self < s.allocated
  log : ∀ e ∈ s.log, ∀ h, e.subject = some h → h < s.allocated
  fresh : ∀ h, s.allocated ≤ h → (s.objects h).instance_ = none

/-- The object `h` is inert: it is allocated, has no instance and no queued
continuation; `seen` is the part of the log that belongs to it. -/
structure Inert (h : Nat) (seen : List Effect) (s : State) : Prop where
  allocated : h < s.allocated
  instance_ : (s.objects h).instance_ = none
  queue : ∀ k ∈ s.queue, k.self ≠ h
  log : about h s.log = seen

/-- The callbacks of the objects below `n` are done with: none of these objects
has a queued continuation; `seen` is the list of the calls of their callbacks. -/
structure Settled (n : Nat) (seen : List (Nat × Option Nat × Bool)) (s : State) : Prop where
  allocated : n ≤ s.allocated
  queue : ∀ k ∈ s.queue, n ≤ k.self
  log : callbacksBelow n s.log = seen

/-- The steps caller code is made of: a `show()`, a `cancel()`, or a
construction up to and including the call of the callback inside it. -/
inductive Call : State → State → Prop
  | shown (x : Nat) (s : State) : Call s (Notification.show x s).2
  | cancelled (x : Nat) (s : State) : Call s (Notification.cancel x s).2
  | built (supported : Bool) (status : Nat) (options : Options) (callback : Option Nat)
      (onTrue onFalse : Script) (s : State) :
      Call s (constructed supported status options callback onTrue onFalse s)

/-- Where the effect of a step of caller code can be seen. -/
structure CallFootprint (s t : State) : Prop where
  allocated : s.allocated ≤ t.allocated
  instances : ∀ h, h ≠ s.allocated → (t.objects h).instance_ = (s.objects h).instance_
  flags : ∀ h, h ≠ s.allocated → (s.objects h).isShowCalled = true →
    (t.objects h).isShowCalled = true
  queue : ∃ ext, t.queue = s.queue ++ ext ∧ ∀ k ∈ ext, k.self = s.allocated
  log : ∃ ext, t.log = s.log ++ ext ∧ ∀ e ∈ ext, ∀ h, e.subject = some h →
    h = s.allocated ∨ ((s.objects h).instance_ ≠ none ∧ e.platform = some h ∧ e.creation = none)
  requested : s.isAccessRequested = true →
    t.isAccessRequested = true ∧ t.intervals = s.intervals

/-- Caller code run while the permission is undecided: every construction in
it is made with the platform capability present and `checkPermission()`
answering 1.  (The bodies of the callbacks are not restricted.) -/
def Script.undecided : Script → Bool
  | .done => true
  | .show _ next => next.undecided
  | .cancel _ next => next.undecided
  | .notification supported status _ _ _ _ next => supported && status == 1 && next.undecided

/-- A turn taken while the permission is undecided: caller code as above, or a
poll tick on which `checkPermission()` answers 1, or any other event. -/
def Event.undecided : Event → Bool
  | .run code => code.undecided
  | .tick _ status => status == 1
  | _ => true

/-- The continuations of the constructions of caller code, in construction
order, when the first object it allocates is `first`. -/
def Script.requests (first : Nat) : Script → List Continuation
  | .done => []
  | .show _ next => next.requests first
  | .cancel _ next => next.requests first
  | .notification _ _ options callback onTrue onFalse next =>
    ⟨first, options.defaults, callback, onTrue, onFalse⟩ :: next.requests (first + 1)

/-- The continuations of the constructions of a turn. -/
def Event.requests (first : Nat) : Event → List Continuation
  | .run code => code.requests first
  | _ => []

/-- The continuations of the constructions of a sequence of turns, in
construction order, when the first object allocated is `first`. -/
def requestsOf (first : Nat) : List Event → List Continuation
  | [] => []
  | e :: trace => e.requests first ++ requestsOf (first + (e.requests first).length) trace

/-- The state of a page on which the permission has been undecided so far:
every object allocated has its continuation queued, in allocation order, no
object has an instance, nothing was logged but the start-up sequence and
`requestPermission()`, and the polling interval runs exactly when the queue is
not empty. -/
structure Waiting (s : State) : Prop where
  selves : s.queue.map (fun k => k.self) = List.range s.allocated
  instances : ∀ h, (s.objects h).instance_ = none
  statuses : ∀ h, (s.objects h).notificationStatus = 1
  timers : s.timers = []
  log : ∀ e ∈ s.log, e.subject = none
  idle : s.allocated = 0 → s.intervals = [] ∧ s.isAccessRequested = false
  polling : 0 < s.allocated → s.intervals = [(0, true)] ∧ s.isAccessRequested = true

/-- What a stretch of turns taken while the permission is undecided does to a
waiting page: the continuations `requests` are appended to the queue, as many
objects are allocated, and a recorded early `show()` stays recorded. -/
structure Queued (requests : List Continuation) (s t : State) : Prop where
  waiting : Waiting t
  queue : t.queue = s.queue ++ requests
  allocated : t.allocated = s.allocated + requests.length
  flags : ∀ y, y < s.allocated → (s.objects y).isShowCalled = true →
    (t.objects y).isShowCalled = true

/-- The calls `ks[0](b)`, `ks[1](b)`, ... one after the other. -/
def drain (b : Bool) (ks : List Continuation) (s : State) : State :=
  ks.foldl (fun acc k => runContinuation k b acc) s

/-- The object `i` is allocated and has no instance; `seen` is the part of the
log that belongs to it. -/
structure Dormant (i : Nat) (seen : List Effect) (s : State) : Prop where
  allocated : i < s.allocated
  instance_ : (s.objects i).instance_ = none
  log : about i s.log = seen

/-- The state in which the interval callback of source lines 193-200 calls
`Notification.callQueue` when interval 0, started by object 0, observes the
decided answer `d`: the answer is stored (line 194) and the interval is
cleared (line 198). -/
def resolved (d : Nat) (s : State) : State :=
  { s.modify 0 (fun o => { o with notificationStatus := d }) with
    intervals := [(0, false)]
    log := s.log ++ [.clearInterval 0] }

/-- The object `h` is allocated and has no queued continuation; `seen` is the
list of the platform creation calls made for it. -/
structure Created (h : Nat) (seen : List Effect) (s : State) : Prop where
  allocated : h < s.allocated
  queue : ∀ k ∈ s.queue, k.self ≠ h
  log : creations h s.log = seen

/-- The timer call of a `show()` on an instance whose object has the timeout `t`. -/
def expiry (self : Nat) (t : Option Nat) : List Effect :=
  match t with
  | some delay => [.setTimeout self delay]
  | none => []

/-- A state during a drain that started with the queue `q0` on a page with `a0`
objects: the queue is `q0` followed by the continuations pushed so far, and
each of these belongs to an object allocated during the drain, which has no
instance and to which nothing in the log belongs. -/
structure Draining (q0 : List Continuation) (a0 : Nat) (u : State) : Prop where
  wellFormed : WellFormed u
  allocated : a0 ≤ u.allocated
  pushed : ∃ ext, u.queue = q0 ++ ext ∧ ∀ k ∈ ext, a0 ≤ k.self ∧ Dormant k.self [] u

/-! ## Frame lemmas: what each method leaves unchanged -/

@[simp] theorem emit_frame (s : State) (e : Effect) :
    (s.emit e).queue = s.queue ∧ (s.emit e).isAccessRequested = s.isAccessRequested ∧
    (s.emit e).allocated = s.allocated ∧ (s.emit e).documentClick = s.documentClick ∧
    (s.emit e).intervals = s.intervals ∧ (s.emit e).objects = s.objects ∧
    (s.emit e).timers = s.timers ∧ (s.emit e).log = s.log ++ [e] :=
  ⟨rfl, rfl, rfl, rfl, rfl, rfl, rfl, rfl⟩

@[simp] theorem modify_frame (s : State) (x : Nat) (f : Notification → Notification) :
    (s.modify x f).queue = s.queue ∧ (s.modify x f).isAccessRequested = s.isAccessRequested ∧
    (s.modify x f).allocated = s.allocated ∧ (s.modify x f).documentClick = s.documentClick ∧
    (s.modify x f).intervals = s.intervals ∧ (s.modify x f).timers = s.timers ∧
    (s.modify x f).log = s.log :=
  ⟨rfl, rfl, rfl, rfl, rfl, rfl, rfl⟩

theorem modify_objects (s : State) (x : Nat) (f : Notification → Notification) (h : Nat) :
    (s.modify x f).objects h = if h = x then f (s.objects x) else s.objects h := by
  simp [State.modify, Function.update_apply]

@[simp] theorem cancel_frame (x : Nat) (s : State) :
    (Notification.cancel x s).2.queue = s.queue ∧
    (Notification.cancel x s).2.isAccessRequested = s.isAccessRequested ∧
    (Notification.cancel x s).2.allocated = s.allocated ∧
    (Notification.cancel x s).2.documentClick = s.documentClick ∧
    (Notification.cancel x s).2.intervals = s.intervals ∧
    (Notification.cancel x s).2.objects = s.objects ∧
    (Notification.cancel x s).2.timers = s.timers := by
  unfold Notification.cancel
  split <;> simp

@[simp] theorem show_frame (x : Nat) (s : State) :
    (Notification.show x s).2.queue = s.queue ∧
    (Notification.show x s).2.isAccessRequested = s.isAccessRequested ∧
    (Notification.show x s).2.allocated = s.allocated ∧
    (Notification.show x s).2.documentClick = s.documentClick ∧
    (Notification.show x s).2.intervals = s.intervals := by
  unfold Notification.show
  split
  · split <;> simp
  · simp

@[simp] theorem addEventListener_frame (x : Nat) (kind : EventKind) (l : Listener) (s : State) :
    (addEventListener x kind l s).queue = s.queue ∧
    (addEventListener x kind l s).isAccessRequested = s.isAccessRequested ∧
    (addEventListener x kind l s).allocated = s.allocated ∧
    (addEventListener x kind l s).documentClick = s.documentClick ∧
    (addEventListener x kind l s).intervals = s.intervals ∧
    (addEventListener x kind l s).timers = s.timers ∧
    (addEventListener x kind l s).log = s.log ++ [.addEventListener x kind l] := by
  simp [addEventListener]

@[simp] theorem addOptional_frame (x : Nat) (kind : EventKind) (f : Option Nat) (s : State) :
    (addOptional x kind f s).queue = s.queue ∧
    (addOptional x kind f s).isAccessRequested = s.isAccessRequested ∧
    (addOptional x kind f s).allocated = s.allocated ∧
    (addOptional x kind f s).documentClick = s.documentClick ∧
    (addOptional x kind f s).intervals = s.intervals ∧
    (addOptional x kind f s).timers = s.timers := by
  cases f <;> simp [addOptional]

@[simp] theorem create_frame (x : Nat) (args : List (Option String)) (s : State) :
    (Notification.create x args s).2.queue = s.queue ∧
    (Notification.create x args s).2.isAccessRequested = s.isAccessRequested ∧
    (Notification.create x args s).2.allocated = s.allocated ∧
    (Notification.create x args s).2.documentClick = s.documentClick ∧
    (Notification.create x args s).2.intervals = s.intervals ∧
    (Notification.create x args s).2.objects = s.objects ∧
    (Notification.create x args s).2.timers = s.timers := by
  unfold Notification.create
  split <;> simp

@[simp] theorem continuation_frame (k : Continuation) (b : Bool) (s : State) :
    (continuation k b s).queue = s.queue ∧
    (continuation k b s).isAccessRequested = s.isAccessRequested ∧
    (continuation k b s).allocated = s.allocated ∧
    (continuation k b s).documentClick = s.documentClick ∧
    (continuation k b s).intervals = s.intervals := by
  unfold continuation
  cases b
  · simp
  · simp only [Bool.not_true, Bool.false_eq_true, if_false]
    split <;> split <;> split <;> simp

theorem show_log (x : Nat) (s : State) :
    (Notification.show x s).2.log = s.log ++ showEffects x (s.objects x) ∧
    (Notification.show x s).2.timers = s.timers ++ showTimers x (s.objects x) := by
  unfold Notification.show showEffects showTimers
  split
  · split <;> simp_all
  · simp_all

theorem show_objects (x : Nat) (s : State) (h : Nat) :
    (Notification.show x s).2.objects h =
      if h = x ∧ (s.objects x).instance_ = none then { s.objects x with isShowCalled := true }
      else s.objects h := by
  unfold Notification.show
  split
  · split <;> simp_all
  · by_cases hx : h = x <;> simp_all [modify_objects]

theorem attach_nil (x : Nat) (s : State) : attach x [] s = s := by
  cases s with
  | mk q a o n d i t l =>
    simp only [attach, List.append_nil, List.map_nil]
    congr
    have : (o x).instance_.map (fun i : Instance => { i with listeners := i.listeners }) = (o x).instance_ := by
      cases (o x).instance_ <;> rfl
    rw [this]
    exact Function.update_eq_self x o

theorem attach_attach (x : Nat) (l1 l2 : List (EventKind × Listener)) (s : State) :
    attach x l2 (attach x l1 s) = attach x (l1 ++ l2) s := by
  cases s with
  | mk q a o n d i t l =>
    simp only [attach, Function.update_same, Function.update_idem, List.map_append, List.append_assoc,
      Option.map_map]
    congr
    cases (o x).instance_ <;> simp

theorem addEventListener_eq (x : Nat) (kind : EventKind) (l : Listener) (s : State) :
    addEventListener x kind l s = attach x [(kind, l)] s := rfl

theorem addOptional_eq (x : Nat) (kind : EventKind) (f : Option Nat) (s : State) :
    addOptional x kind f s = attach x (optionalListener kind f) s := by
  cases f
  · simp [addOptional, optionalListener, attach_nil]
  · rfl

theorem autoclose_eq (x : Nat) (o : Options) (s : State) :
    (if truthyBool o.autoclose then addEventListener x .click .selfCancel s else s) =
      attach x (if truthyBool o.autoclose then [(.click, .selfCancel)] else []) s := by
  split
  · rfl
  · exact (attach_nil x s).symm

theorem continuation_true (k : Continuation) (s : State) :
    continuation k true s =
      { s with
        objects := Function.update s.objects k.self (grantedObject k (s.objects k.self))
        timers := s.timers ++
          (if (s.objects k.self).isShowCalled then
            showTimers k.self (grantedObject k (s.objects k.self)) else [])
        log := s.log ++ [creationOf k.self k.options] ++
          (listenersOf k.options).map (fun l => .addEventListener k.self l.1 l.2) ++
          (if (s.objects k.self).isShowCalled then
            showEffects k.self (grantedObject k (s.objects k.self)) else []) } := by
  unfold continuation
  simp only [Bool.not_true, Bool.false_eq_true, if_false, addOptional_eq, autoclose_eq, attach_attach]
  cases s with
  | mk q a o n d i t l =>
    by_cases hu : truthyString k.options.url = true <;>
    by_cases hs : (o k.self).isShowCalled = true <;>
    cases ht : timeoutOr k.options.timeout <;>
    simp [hu, hs, ht, Notification.create, State.modify, State.emit, attach, Notification.show, grantedObject,
      showTimers, showEffects, creationOf, contentOf, listenersOf]

theorem construct_snd (supported : Bool) (status : Nat) (options : Options) (callback : Option Nat)
    (onTrue onFalse : Script) (s : State) :
    (construct supported status options callback onTrue onFalse s).2 = calledWith supported status := by
  unfold construct calledWith monitorPermission
  cases supported
  · simp
  · by_cases h : status = 1
    · by_cases hr : s.isAccessRequested = true <;> simp [h, hr, modify_objects]
    · simp [h, modify_objects]

theorem runScript_notification (supported : Bool) (status : Nat) (options : Options)
    (callback : Option Nat) (onTrue onFalse next : Script) (s : State) :
    runScript (.notification supported status options callback onTrue onFalse next) s =
      runScript next
        (match calledWith supported status with
          | none => constructed supported status options callback onTrue onFalse s
          | some b => callbackBody callback onTrue onFalse b
              (constructed supported status options callback onTrue onFalse s)) := by
  have h := construct_snd supported status options callback onTrue onFalse s
  rw [runScript, constructed]
  rcases hc : construct supported status options callback onTrue onFalse s with ⟨s1, r⟩
  rw [hc] at h
  simp only at h
  subst h
  cases hw : calledWith supported status with
  | none => simp
  | some b =>
    cases callback <;> cases b <;> simp [callbackBody]

/-- A property kept by every method call of caller code is kept by caller code. -/
theorem runScript_invariant (Inv : State → Prop)
    (hshow : ∀ x s, Inv s → Inv (Notification.show x s).2)
    (hcancel : ∀ x s, Inv s → Inv (Notification.cancel x s).2)
    (hnew : ∀ supported status options callback onTrue onFalse s, Inv s →
      Inv (constructed supported status options callback onTrue onFalse s)) :
    ∀ (code : Script) (s : State), Inv s → Inv (runScript code s)
  | .done, _, h => h
  | .show x next, s, h => runScript_invariant Inv hshow hcancel hnew next _ (hshow x s h)
  | .cancel x next, s, h => runScript_invariant Inv hshow hcancel hnew next _ (hcancel x s h)
  | .notification supported status options callback onTrue onFalse next, s, h => by
    rw [runScript_notification]
    apply runScript_invariant Inv hshow hcancel hnew next
    have hc := hnew supported status options callback onTrue onFalse s h
    cases calledWith supported status with
    | none => exact hc
    | some b =>
      cases callback with
      | none => exact hc
      | some fn =>
        cases b
        · exact runScript_invariant Inv hshow hcancel hnew onFalse _ hc
        · exact runScript_invariant Inv hshow hcancel hnew onTrue _ hc

/-- A property kept by every atom is kept by caller code. -/
theorem runScript_atoms (Inv : State → Prop) (hInv : ∀ s t, Atom s t → Inv s → Inv t)
    (code : Script) (s : State) (h : Inv s) : Inv (runScript code s) :=
  runScript_invariant Inv (fun x s => hInv _ _ (.shown x s)) (fun x s => hInv _ _ (.cancelled x s))
    (fun a b c d e f s => hInv _ _ (.built a b c d e f s)) code s h

theorem callbackBody_atoms (Inv : State → Prop) (hInv : ∀ s t, Atom s t → Inv s → Inv t)
    (callback : Option Nat) (onTrue onFalse : Script) (b : Bool) (s : State) (h : Inv s) :
    Inv (callbackBody callback onTrue onFalse b s) := by
  unfold callbackBody
  split
  · exact h
  · exact runScript_atoms Inv hInv _ _ h
  · exact runScript_atoms Inv hInv _ _ h

theorem runContinuation_atoms (Inv : State → Prop) (hInv : ∀ s t, Atom s t → Inv s → Inv t)
    (k : Continuation) (b : Bool) (s : State) (hk : k ∈ s.queue) (h : Inv s) :
    Inv (runContinuation k b s) :=
  callbackBody_atoms Inv hInv _ _ _ _ _ (hInv _ _ (.called k b s hk) h)

theorem callQueueLoop_atoms (Inv : State → Prop) (hInv : ∀ s t, Atom s t → Inv s → Inv t)
    (b : Bool) : ∀ (n i : Nat) (s : State), Inv s → Inv (callQueueLoop b n i s)
  | 0, _, _, h => h
  | n + 1, i, s, h => by
    unfold callQueueLoop
    split
    · exact h
    · rename_i k hk
      exact callQueueLoop_atoms Inv hInv b n (i + 1) _
        (runContinuation_atoms Inv hInv k b s (List.getElem?_mem hk) h)

theorem callQueue_atoms (Inv : State → Prop) (hInv : ∀ s t, Atom s t → Inv s → Inv t)
    (b : Bool) (s : State) (h : Inv s) : Inv (callQueue b s) :=
  hInv _ _ (.drained _) (callQueueLoop_atoms Inv hInv b _ _ s h)

theorem tick_atoms (Inv : State → Prop) (hInv : ∀ s t, Atom s t → Inv s → Inv t)
    (id status : Nat) (s : State) (h : Inv s) : Inv (tick id status s) := by
  unfold tick
  split
  · rename_i self hi
    have h1 := hInv _ _ (.polled id self status s hi) h
    split
    · exact h1
    · exact callQueue_atoms Inv hInv _ _ (hInv _ _ (.cleared id self _ (by simpa using hi)) h1)
  · exact h

theorem dispatch_atoms (Inv : State → Prop) (hInv : ∀ s t, Atom s t → Inv s → Inv t)
    (self : Nat) (kind : EventKind) (s : State) (h : Inv s) : Inv (dispatch self kind s) := by
  unfold dispatch
  split
  · exact h
  · rename_i i hi
    clear hi
    generalize i.listeners.filter (fun l => l.1 = kind) = ls
    induction ls generalizing s with
    | nil => exact h
    | cons l ls ih =>
      simp only [List.foldl_cons]
      apply ih
      split
      · exact hInv _ _ (.heard _ _) h
      · exact hInv _ _ (.cancelled _ _) h

theorem timerFired_atoms (Inv : State → Prop) (hInv : ∀ s t, Atom s t → Inv s → Inv t)
    (i : Nat) (s : State) (h : Inv s) : Inv (timerFired i s) := by
  unfold timerFired
  split
  · exact h
  · exact hInv _ _ (.cancelled _ _) (hInv _ _ (.expired i s) h)

/-- A property kept by every atom is kept by every turn of the event loop. -/
theorem step_atoms (Inv : State → Prop) (hInv : ∀ s t, Atom s t → Inv s → Inv t)
    (e : Event) (s : State) (h : Inv s) : Inv (step s e) := by
  cases e with
  | run code => exact runScript_atoms Inv hInv code s h
  | tick id status => exact tick_atoms Inv hInv id status s h
  | documentClick => exact hInv _ _ (.clicked s) h
  | dispatch self kind => exact dispatch_atoms Inv hInv self kind s h
  | timer i => exact timerFired_atoms Inv hInv i s h

/-- A property kept by every atom is kept by every sequence of turns. -/
theorem runTrace_atoms (Inv : State → Prop) (hInv : ∀ s t, Atom s t → Inv s → Inv t) :
    ∀ (trace : List Event) (s : State), Inv s → Inv (runTrace trace s)
  | [], _, h => h
  | e :: trace, s, h => runTrace_atoms Inv hInv trace (step s e) (step_atoms Inv hInv e s h)

theorem constructed_eq (supported : Bool) (status : Nat) (options : Options) (callback : Option Nat)
    (onTrue onFalse : Script) (s : State) :
    constructed supported status options callback onTrue onFalse s =
      if !supported then (s.alloc 1).emit (.callback s.allocated callback false)
      else if status = 1 then
        if s.isAccessRequested then
          { s.alloc 1 with
            queue := s.queue ++ [⟨s.allocated, options.defaults, callback, onTrue, onFalse⟩] }
        else
          startup s.allocated { s.alloc 1 with
            queue := s.queue ++ [⟨s.allocated, options.defaults, callback, onTrue, onFalse⟩] }
      else
        called ⟨s.allocated, options.defaults, callback, onTrue, onFalse⟩ (status == 0)
          (s.alloc status) := by
  cases s with
  | mk q a o n d i t l =>
  cases supported
  · simp [constructed, construct, State.alloc, Notification.proto]
  · by_cases h : status = 1
    · subst h
      cases a <;>
        simp [constructed, construct, monitorPermission, State.alloc, State.modify, Notification.proto]
    · simp [constructed, construct, monitorPermission, State.alloc, State.modify, Notification.proto, h,
        called]

theorem showEffects_platform (x : Nat) (o : Notification) :
    ∀ e ∈ showEffects x o, e.platform = some x ∧ e.creation = none := by
  unfold showEffects
  intro e he
  split at he
  · simp at he
  · split at he <;> simp at he <;> rcases he with rfl | rfl <;> exact ⟨rfl, rfl⟩

theorem show_ext (x : Nat) (s : State) :
    ∃ ext, (Notification.show x s).2.log = s.log ++ ext ∧
      ∀ e ∈ ext, e.platform = some x ∧ e.creation = none :=
  ⟨showEffects x (s.objects x), (show_log x s).1, showEffects_platform x _⟩

theorem cancel_ext (x : Nat) (s : State) :
    ∃ ext, (Notification.cancel x s).2.log = s.log ++ ext ∧
      ∀ e ∈ ext, e.platform = some x ∧ e.creation = none := by
  unfold Notification.cancel
  split
  · exact ⟨[.instanceCancel x], rfl, by simp [Effect.platform, Effect.creation]⟩
  · exact ⟨[], by simp, by simp⟩

theorem continuation_ext (k : Continuation) (b : Bool) (s : State) :
    ∃ ext, (continuation k b s).log = s.log ++ ext ∧ ∀ e ∈ ext, e.platform = some k.self := by
  cases b
  · exact ⟨[], by simp [continuation], by simp⟩
  · rw [continuation_true]
    refine ⟨_, by simp only [List.append_assoc]; rfl, ?_⟩
    intro e he
    simp only [List.mem_append, List.mem_singleton, List.mem_map] at he
    rcases he with rfl | ⟨l, _, rfl⟩ | he
    · unfold creationOf; split <;> rfl
    · rfl
    · split at he
      · exact (showEffects_platform _ _ e he).1
      · simp at he

@[simp] theorem alloc_frame (s : State) (status : Nat) :
    (s.alloc status).queue = s.queue ∧ (s.alloc status).isAccessRequested = s.isAccessRequested ∧
    (s.alloc status).allocated = s.allocated + 1 ∧ (s.alloc status).documentClick = s.documentClick ∧
    (s.alloc status).intervals = s.intervals ∧ (s.alloc status).timers = s.timers ∧
    (s.alloc status).log = s.log :=
  ⟨rfl, rfl, rfl, rfl, rfl, rfl, rfl⟩

theorem alloc_objects (s : State) (status : Nat) (h : Nat) :
    (s.alloc status).objects h =
      if h = s.allocated then { Notification.proto with notificationStatus := status }
      else s.objects h := by
  simp [State.alloc, Function.update_apply]

theorem startup_of_platform {e : Effect} {x : Nat} (h : e.platform = some x) : e.startup = false := by
  cases e <;> simp_all [Effect.platform, Effect.startup]

theorem count_append_quiet (l ext : List Effect) (h : ∀ e ∈ ext, e.startup = false) :
    (l ++ ext).count .documentOne = l.count .documentOne ∧
    (l ++ ext).count .requestPermission = l.count .requestPermission ∧
    intervalStarts (l ++ ext) = intervalStarts l := by
  induction ext using List.reverseRecOn with
  | nil => simp
  | append_singleton ext e ih =>
    have he : e.startup = false := h e (by simp)
    have ih := ih (fun e' he' => h e' (by simp [he']))
    rw [← List.append_assoc]
    cases e <;> simp_all [Effect.startup, intervalStarts, List.count_append, List.filter_append]

theorem startedOnce_quiet (s t : State) (ext : List Effect)
    (hr : t.isAccessRequested = s.isAccessRequested) (hd : t.documentClick = s.documentClick)
    (hi : t.intervals.length = s.intervals.length) (hl : t.log = s.log ++ ext)
    (hq : ∀ e ∈ ext, e.startup = false) (h : StartedOnce s) : StartedOnce t := by
  obtain ⟨h1, h2, h3⟩ := count_append_quiet s.log ext hq
  unfold StartedOnce at *
  rw [hr, hd, hi, hl, h1, h2, h3]
  exact h

theorem startedOnce_atom (s t : State) (a : Atom s t) (h : StartedOnce s) : StartedOnce t := by
  cases a with
  | shown x =>
    obtain ⟨ext, hl, hp⟩ := show_ext x s
    exact startedOnce_quiet s _ ext (by simp) (by simp) (by simp) hl
      (fun e he => startup_of_platform (hp e he).1) h
  | cancelled x =>
    obtain ⟨ext, hl, hp⟩ := cancel_ext x s
    exact startedOnce_quiet s _ ext (by simp) (by simp) (by simp) hl
      (fun e he => startup_of_platform (hp e he).1) h
  | built supported status options callback onTrue onFalse =>
    rw [constructed_eq]
    split
    · exact startedOnce_quiet s _ [.callback s.allocated callback false] rfl rfl rfl rfl
        (by simp [Effect.startup]) h
    · split
      · split
        · exact startedOnce_quiet s _ [] rfl rfl rfl (by simp) (by simp) h
        · rename_i hr
          have hr : s.isAccessRequested = false := by simpa using hr
          obtain ⟨h1, h2, h3, h4, h5⟩ := h.1 hr
          simp [StartedOnce, startup, State.alloc, List.count_append, intervalStarts,
            List.filter_append, h1, h2, h3, h4, h5]
          simpa [intervalStarts] using h4
      · unfold called
        obtain ⟨ext, hl, hp⟩ := continuation_ext
          ⟨s.allocated, options.defaults, callback, onTrue, onFalse⟩ (status == 0) (s.alloc status)
        refine startedOnce_quiet s _ (ext ++ [.callback s.allocated callback (status == 0)])
          (by simp) (by simp) (by simp) (by simp [hl]) ?_ h
        intro e he
        rcases List.mem_append.1 he with he | he
        · exact startup_of_platform (hp e he)
        · simp at he; subst he; rfl
  | called k b hk =>
    unfold JqueryNotification.called
    obtain ⟨ext, hl, hp⟩ := continuation_ext k b s
    refine startedOnce_quiet s _ (ext ++ [.callback k.self k.callback b])
      (by simp) (by simp) (by simp) (by simp [hl]) ?_ h
    intro e he
    rcases List.mem_append.1 he with he | he
    · exact startup_of_platform (hp e he)
    · simp at he; subst he; rfl
  | polled id self status hi =>
    exact startedOnce_quiet s _ [] rfl rfl rfl (by simp) (by simp) h
  | cleared id self hi =>
    exact startedOnce_quiet s _ [.clearInterval id] rfl rfl (by simp) rfl
      (by simp [Effect.startup]) h
  | drained => exact h
  | clicked =>
    unfold StartedOnce documentClicked at *
    constructor
    · intro hr
      obtain ⟨h1, h2, h3, h4, h5⟩ := h.1 hr
      simp_all [List.count_append, intervalStarts, List.filter_append]
    · intro hr
      obtain ⟨h1, h2, h3, h4⟩ := h.2 hr
      simp_all [List.count_append, intervalStarts, List.filter_append, List.count_replicate]
      omega
  | heard fn =>
    exact startedOnce_quiet s _ [.listener fn] rfl rfl rfl rfl (by simp [Effect.startup]) h
  | expired i => exact h

theorem requested_atom (s t : State) (a : Atom s t) (h : s.isAccessRequested = true) :
    t.isAccessRequested = true := by
  cases a with
  | built supported status options callback onTrue onFalse =>
    rw [constructed_eq]
    split_ifs <;> simp_all [called, startup]
  | called k b hk => simpa [JqueryNotification.called] using h
  | _ => first | exact h | simpa using h

theorem runTrace_append (t1 t2 : List Event) (s : State) :
    runTrace (t1 ++ t2) s = runTrace t2 (runTrace t1 s) := by
  simp [runTrace, List.foldl_append]

theorem startedOnce_init : StartedOnce State.init := by
  simp [StartedOnce, State.init, intervalStarts]

/-- C2: in every run of the page (any sequence of caller code, poll ticks,
document clicks, instance events and timer expiries, whatever
`checkPermission()` answers), `requestPermission()` is called at most once,
the one-shot document click listener is registered at most once and at most
one polling interval is started; each of the two has happened exactly when
`Notification.isAccessRequested` is set, and the flag, once set, is never reset. -/
theorem C2_startup_at_most_once (trace later : List Event) :
    (runTrace trace State.init).log.count .requestPermission ≤ 1 ∧
    (runTrace trace State.init).log.count .documentOne =
      (if (runTrace trace State.init).isAccessRequested then 1 else 0) ∧
    intervalStarts (runTrace trace State.init).log =
      (if (runTrace trace State.init).isAccessRequested then 1 else 0) ∧
    (runTrace trace State.init).intervals.length =
      (if (runTrace trace State.init).isAccessRequested then 1 else 0) ∧
    ((runTrace trace State.init).isAccessRequested = true →
      (runTrace (trace ++ later) State.init).isAccessRequested = true) := by
  have h := runTrace_atoms StartedOnce startedOnce_atom trace State.init startedOnce_init
  refine ⟨?_, ?_, ?_, ?_, ?_⟩
  · cases hr : (runTrace trace State.init).isAccessRequested
    · rw [(h.1 hr).2.2.1]; exact Nat.zero_le 1
    · have := (h.2 hr).2.2.1; omega
  · cases hr : (runTrace trace State.init).isAccessRequested
    · simpa using (h.1 hr).2.1
    · simpa using (h.2 hr).1
  · cases hr : (runTrace trace State.init).isAccessRequested
    · simpa using (h.1 hr).2.2.2.1
    · simpa using (h.2 hr).2.1
  · cases hr : (runTrace trace State.init).isAccessRequested
    · simpa using (h.1 hr).2.2.2.2
    · simpa using (h.2 hr).2.2.2
  · intro hr
    rw [runTrace_append]
    exact runTrace_atoms (fun s => s.isAccessRequested = true) requested_atom later _ hr

theorem subject_of_platform {e : Effect} {x : Nat} (h : e.platform = some x) : e.subject = some x := by
  cases e <;> simp_all [Effect.platform, Effect.subject]

theorem show_instance (x : Nat) (s : State) (h : Nat) :
    ((Notification.show x s).2.objects h).instance_ = (s.objects h).instance_ := by
  rw [show_objects]
  split
  · rename_i hc; rw [hc.1, hc.2]
  · rfl

theorem show_quiet (x : Nat) (s : State) (h : (s.objects x).instance_ = none) :
    (Notification.show x s).2.log = s.log := by
  rw [(show_log x s).1, showEffects, h]; simp

theorem cancel_quiet (x : Nat) (s : State) (h : (s.objects x).instance_ = none) :
    (Notification.cancel x s).2 = s := by
  rw [Notification.cancel, h]

theorem continuation_objects (k : Continuation) (b : Bool) (s : State) (h : Nat) (hk : h ≠ k.self) :
    (continuation k b s).objects h = s.objects h := by
  cases b
  · simp [continuation]
  · rw [continuation_true]; simp [Function.update_noteq hk]

theorem footprint_called (k : Continuation) (b : Bool) (s : State) :
    s.allocated = (called k b s).allocated ∧
    (∀ h, ((called k b s).objects h).instance_ ≠ (s.objects h).instance_ → h = k.self) ∧
    (called k b s).queue = s.queue ∧
    ∃ ext, (called k b s).log = s.log ++ ext ∧ ∀ e ∈ ext, e.subject = some k.self := by
  refine ⟨by simp [called], ?_, by simp [called], ?_⟩
  · intro h hne
    by_contra hk
    exact hne (by simp [called, continuation_objects k b s h hk])
  · obtain ⟨ext, hl, hp⟩ := continuation_ext k b s
    refine ⟨ext ++ [.callback k.self k.callback b], by simp [called, hl], ?_⟩
    intro e he
    rcases List.mem_append.1 he with he | he
    · exact subject_of_platform (hp e he)
    · simp at he; subst he; rfl

theorem footprint_atom (s t : State) (a : Atom s t) : Footprint s t := by
  cases a with
  | shown x =>
    refine ⟨by simp, fun h hne => absurd (show_instance x s h) hne, by simp, ?_⟩
    by_cases hx : (s.objects x).instance_ = none
    · exact ⟨[], by simp [show_quiet x s hx], by simp⟩
    · obtain ⟨ext, hl, hp⟩ := show_ext x s
      refine ⟨ext, hl, fun e he h hs => Or.inr (Or.inr ?_)⟩
      have := subject_of_platform (hp e he).1
      rw [hs] at this
      cases this
      exact ⟨hx, hp e he⟩
  | cancelled x =>
    by_cases hx : (s.objects x).instance_ = none
    · rw [cancel_quiet x s hx]
      exact ⟨le_refl _, fun h hne => absurd rfl hne, fun k hk => Or.inl hk, [], by simp, by simp⟩
    · refine ⟨by simp, fun h hne => absurd (by simp) hne, by simp, ?_⟩
      obtain ⟨ext, hl, hp⟩ := cancel_ext x s
      refine ⟨ext, hl, fun e he h hs => Or.inr (Or.inr ?_)⟩
      have := subject_of_platform (hp e he).1
      rw [hs] at this
      cases this
      exact ⟨hx, hp e he⟩
  | built supported status options callback onTrue onFalse =>
    rw [constructed_eq]
    split
    · refine ⟨by simp, ?_, fun k hk => Or.inl (by simpa using hk),
        [.callback s.allocated callback false], by simp, ?_⟩
      · intro h hne
        by_contra hk
        have hk : h ≠ s.allocated := fun hh => hk (Or.inl ⟨hh, by simp⟩)
        exact hne (by simp [alloc_objects, hk])
      · intro e he h hs
        simp at he; subst he
        simp [Effect.subject] at hs
        exact Or.inl ⟨hs.symm, by simp⟩
    · split
      · have hobj : ∀ h, h ≠ s.allocated → ((s.alloc 1).objects h) = s.objects h := by
          intro h hk; simp [alloc_objects, hk]
        split
        · refine ⟨by simp, ?_, ?_, [], by simp, by simp⟩
          · intro h hne
            by_contra hk
            have hk : h ≠ s.allocated := fun hh => hk (Or.inl ⟨hh, by simp⟩)
            exact hne (by simp [hobj h hk])
          · intro k hk
            simp at hk
            rcases hk with hk | rfl
            · exact Or.inl hk
            · exact Or.inr ⟨rfl, rfl⟩
        · refine ⟨by simp [startup], ?_, ?_, [.documentOne, .setInterval s.allocated],
            by simp [startup], ?_⟩
          · intro h hne
            by_contra hk
            have hk : h ≠ s.allocated := fun hh => hk (Or.inl ⟨hh, by simp [startup]⟩)
            exact hne (by simp [startup, hobj h hk])
          · intro k hk
            simp [startup] at hk
            rcases hk with hk | rfl
            · exact Or.inl hk
            · exact Or.inr ⟨rfl, by simp [startup]⟩
          · intro e he h hs
            simp at he
            rcases he with rfl | rfl <;> simp [Effect.subject, Effect.platform] at hs
      · obtain ⟨h1, h2, h3, ext, h4, h5⟩ := footprint_called
          ⟨s.allocated, options.defaults, callback, onTrue, onFalse⟩ (status == 0) (s.alloc status)
        have ha : (called ⟨s.allocated, options.defaults, callback, onTrue, onFalse⟩ (status == 0)
            (s.alloc status)).allocated = s.allocated + 1 := by rw [← h1]; simp
        refine ⟨by omega, ?_, ?_, ext, by simpa using h4, ?_⟩
        · intro h hne
          by_contra hk
          have hk : h ≠ s.allocated := fun hh => hk (Or.inl ⟨hh, ha⟩)
          apply hne
          by_contra hne2
          have := h2 h (by rw [alloc_objects, if_neg hk]; exact hne2)
          exact hk this
        · intro k hk
          rw [h3] at hk
          exact Or.inl (by simpa using hk)
        · intro e he h hs
          have := h5 e he
          rw [hs] at this
          cases this
          exact Or.inl ⟨rfl, ha⟩
  | called k b hk =>
    rename_i hk
    obtain ⟨h1, h2, h3, ext, h4, h5⟩ := footprint_called k b s
    refine ⟨by omega, fun h hne => Or.inr ⟨k, hk, (h2 h hne).symm⟩, fun k' hk' => Or.inl (h3 ▸ hk'),
      ext, h4, ?_⟩
    intro e he h hs
    have := h5 e he
    rw [hs] at this
    cases this
    exact Or.inr (Or.inl ⟨k, hk, rfl⟩)
  | polled id self status hi =>
    refine ⟨le_refl _, ?_, fun k hk => Or.inl hk, [], by simp, by simp⟩
    intro h hne
    exfalso; apply hne
    rw [modify_objects]
    split
    · rename_i hh; rw [hh]
    · rfl
  | cleared id self hi =>
    exact ⟨le_refl _, fun h hne => absurd rfl hne, fun k hk => Or.inl hk, [.clearInterval id], rfl,
      by simp [Effect.subject, Effect.platform]⟩
  | drained =>
    exact ⟨le_refl _, fun h hne => absurd rfl hne, fun k hk => by simp at hk, [], by simp, by simp⟩
  | clicked =>
    refine ⟨le_refl _, fun h hne => absurd rfl hne, fun k hk => Or.inl hk,
      List.replicate s.documentClick .requestPermission, rfl, ?_⟩
    intro e he h hs
    rw [List.eq_of_mem_replicate he] at hs
    simp [Effect.subject, Effect.platform] at hs
  | heard fn =>
    exact ⟨le_refl _, fun h hne => absurd rfl hne, fun k hk => Or.inl hk, [.listener fn], rfl,
      by simp [Effect.subject, Effect.platform]⟩
  | expired i =>
    exact ⟨le_refl _, fun h hne => absurd rfl hne, fun k hk => Or.inl hk, [], by simp, by simp⟩

theorem wellFormed_init : WellFormed State.init :=
  ⟨by simp [State.init], by simp [State.init], fun _ _ => rfl⟩

theorem wellFormed_atom (s t : State) (a : Atom s t) (h : WellFormed s) : WellFormed t := by
  have f := footprint_atom s t a
  refine ⟨?_, ?_, ?_⟩
  · intro k hk
    rcases f.queue k hk with hk | ⟨h1, h2⟩
    · exact lt_of_lt_of_le (h.queue k hk) f.allocated
    · omega
  · obtain ⟨ext, hl, he⟩ := f.log
    intro e hm x hx
    rw [hl] at hm
    rcases List.mem_append.1 hm with hm | hm
    · exact lt_of_lt_of_le (h.log e hm x hx) f.allocated
    · rcases he e hm x hx with ⟨h1, h2⟩ | ⟨k, hk, rfl⟩ | ⟨h1, _⟩
      · omega
      · exact lt_of_lt_of_le (h.queue k hk) f.allocated
      · by_contra hc
        exact h1 (h.fresh x (by have := f.allocated; omega))
  · intro x hx
    by_cases hc : (t.objects x).instance_ = (s.objects x).instance_
    · rw [hc]; exact h.fresh x (le_trans f.allocated hx)
    · rcases f.instances x hc with ⟨h1, h2⟩ | ⟨k, hk, rfl⟩
      · omega
      · have := h.queue k hk
        have := f.allocated
        omega

theorem wellFormed_reachable (trace : List Event) : WellFormed (runTrace trace State.init) :=
  runTrace_atoms WellFormed wellFormed_atom trace _ wellFormed_init

theorem about_append (h : Nat) (l1 l2 : List Effect) : about h (l1 ++ l2) = about h l1 ++ about h l2 := by
  simp [about]

theorem inert_atom (x : Nat) (seen : List Effect) (s t : State) (a : Atom s t)
    (h : Inert x seen s) : Inert x seen t := by
  have f := footprint_atom s t a
  have hq : ¬ ∃ k ∈ s.queue, k.self = x := fun ⟨k, hk, hx⟩ => h.queue k hk hx
  have ha : ¬ (x = s.allocated ∧ t.allocated = s.allocated + 1) := fun ⟨h1, _⟩ => by
    have := h.allocated; omega
  refine ⟨lt_of_lt_of_le h.allocated f.allocated, ?_, ?_, ?_⟩
  · by_contra hc
    have hne : (t.objects x).instance_ ≠ (s.objects x).instance_ := by
      rw [h.instance_]; exact hc
    rcases f.instances x hne with h1 | h1
    · exact ha h1
    · exact hq h1
  · intro k hk hx
    rcases f.queue k hk with hk | ⟨h1, h2⟩
    · exact h.queue k hk hx
    · exact ha ⟨by omega, h2⟩
  · obtain ⟨ext, hl, he⟩ := f.log
    rw [hl, about_append, h.log]
    have : about x ext = [] := by
      unfold about
      rw [List.filter_eq_nil_iff]
      intro e hm
      simp only [decide_eq_true_eq]
      intro hs
      rcases he e hm x hs with h1 | h1 | ⟨h1, _⟩
      · exact ha h1
      · exact hq h1
      · exact h1 h.instance_
    rw [this, List.append_nil]

theorem callbacksBelow_append (n : Nat) (l1 l2 : List Effect) :
    callbacksBelow n (l1 ++ l2) = callbacksBelow n l1 ++ callbacksBelow n l2 := by
  simp [callbacksBelow]

theorem settled_atom (n : Nat) (seen : List (Nat × Option Nat × Bool)) (s t : State) (a : Atom s t)
    (h : Settled n seen s) : Settled n seen t := by
  have f := footprint_atom s t a
  refine ⟨le_trans h.allocated f.allocated, ?_, ?_⟩
  · intro k hk
    rcases f.queue k hk with hk | ⟨h1, h2⟩
    · exact h.queue k hk
    · have := h.allocated; omega
  · obtain ⟨ext, hl, he⟩ := f.log
    rw [hl, callbacksBelow_append, h.log]
    have : callbacksBelow n ext = [] := by
      unfold callbacksBelow
      rw [List.filterMap_eq_nil_iff]
      intro e hm
      cases e with
      | callback self fn b =>
        have hlt : ¬ self < n := by
          intro hlt
          rcases he _ hm self rfl with ⟨h1, _⟩ | ⟨k, hk, hx⟩ | ⟨_, h1⟩
          · have := h.allocated; omega
          · have := h.queue k hk; omega
          · simp [Effect.platform] at h1
        simp [hlt]
      | _ => rfl
    rw [this, List.append_nil]

theorem about_fresh (s : State) (h : WellFormed s) (x : Nat) (hx : s.allocated ≤ x) :
    about x s.log = [] := by
  unfold about
  rw [List.filter_eq_nil_iff]
  intro e hm
  simp only [decide_eq_true_eq]
  intro hs
  have := h.log e hm x hs
  omega

/-- C5: without the platform capability (`window.webkitNotifications` missing)
the constructing call, made in any reachable state with any options and
callback, calls `callback(false)` once and does nothing else: the queue, the
flag `isAccessRequested`, the document click listeners, the intervals and the
timers are unchanged, the only logged call is the callback call, the new object
keeps its prototype values and nothing happens in the constructor after the
callback returns; and whatever happens later, the object never gets an instance
and the callback call stays the only call that belongs to it. -/
theorem C5_capability_absent (before later : List Event) (status : Nat) (options : Options)
    (callback : Option Nat) (onTrue onFalse next : Script) :
    (constructed false status options callback onTrue onFalse (runTrace before State.init)).queue =
      (runTrace before State.init).queue ∧
    (constructed false status options callback onTrue onFalse
      (runTrace before State.init)).isAccessRequested =
      (runTrace before State.init).isAccessRequested ∧
    (constructed false status options callback onTrue onFalse
      (runTrace before State.init)).documentClick = (runTrace before State.init).documentClick ∧
    (constructed false status options callback onTrue onFalse (runTrace before State.init)).intervals =
      (runTrace before State.init).intervals ∧
    (constructed false status options callback onTrue onFalse (runTrace before State.init)).timers =
      (runTrace before State.init).timers ∧
    (constructed false status options callback onTrue onFalse (runTrace before State.init)).log =
      (runTrace before State.init).log ++
        [.callback (runTrace before State.init).allocated callback false] ∧
    (constructed false status options callback onTrue onFalse (runTrace before State.init)).objects =
      Function.update (runTrace before State.init).objects (runTrace before State.init).allocated
        Notification.proto ∧
    runScript (.notification false status options callback onTrue onFalse next)
        (runTrace before State.init) =
      runScript next (callbackBody callback onTrue onFalse false
        (constructed false status options callback onTrue onFalse (runTrace before State.init))) ∧
    ((runTrace later (runScript (.notification false status options callback onTrue onFalse next)
        (runTrace before State.init))).objects (runTrace before State.init).allocated).instance_ =
      none ∧
    about (runTrace before State.init).allocated
        (runTrace later (runScript (.notification false status options callback onTrue onFalse next)
          (runTrace before State.init))).log =
      [.callback (runTrace before State.init).allocated callback false] := by
  have hw := wellFormed_reachable before
  generalize runTrace before State.init = s at hw
  have hc : constructed false status options callback onTrue onFalse s =
      (s.alloc 1).emit (.callback s.allocated callback false) := by
    rw [constructed_eq]; rfl
  have hrun : runScript (.notification false status options callback onTrue onFalse next) s =
      runScript next (callbackBody callback onTrue onFalse false
        (constructed false status options callback onTrue onFalse s)) := by
    rw [runScript_notification]; rfl
  have hi : Inert s.allocated [.callback s.allocated callback false]
      (constructed false status options callback onTrue onFalse s) := by
    rw [hc]
    refine ⟨by simp, by simp [alloc_objects, Notification.proto], ?_, ?_⟩
    · intro k hk
      have := hw.queue k (by simpa using hk)
      omega
    · simp only [emit_frame, alloc_frame, about_append, about_fresh s hw s.allocated (le_refl _)]
      simp [about, Effect.subject]
  have hfin := runTrace_atoms _ (inert_atom s.allocated _) later _
    (runScript_atoms _ (inert_atom s.allocated _) next _
      (callbackBody_atoms _ (inert_atom s.allocated _) callback onTrue onFalse false _ hi))
  rw [← hrun] at hfin
  refine ⟨by simp [hc], by simp [hc], by simp [hc], by simp [hc], by simp [hc], by simp [hc], ?_,
    hrun, hfin.instance_, hfin.log⟩
  rw [hc]
  simp [State.alloc, Notification.proto]

/-- A property kept by every step of caller code is kept by caller code. -/
theorem runScript_calls (Inv : State → Prop) (hInv : ∀ s t, Call s t → Inv s → Inv t)
    (code : Script) (s : State) (h : Inv s) : Inv (runScript code s) :=
  runScript_invariant Inv (fun x s => hInv _ _ (.shown x s)) (fun x s => hInv _ _ (.cancelled x s))
    (fun a b c d e f s => hInv _ _ (.built a b c d e f s)) code s h

theorem callbackBody_calls (Inv : State → Prop) (hInv : ∀ s t, Call s t → Inv s → Inv t)
    (callback : Option Nat) (onTrue onFalse : Script) (b : Bool) (s : State) (h : Inv s) :
    Inv (callbackBody callback onTrue onFalse b s) := by
  unfold callbackBody
  split
  · exact h
  · exact runScript_calls Inv hInv _ _ h
  · exact runScript_calls Inv hInv _ _ h

theorem show_flags (x : Nat) (s : State) (h : Nat) (hf : (s.objects h).isShowCalled = true) :
    ((Notification.show x s).2.objects h).isShowCalled = true := by
  rw [show_objects]
  split
  · rfl
  · exact hf

theorem footprint_call (s t : State) (c : Call s t) : CallFootprint s t := by
  cases c with
  | shown x =>
    refine ⟨by simp, fun h _ => show_instance x s h, fun h _ hf => show_flags x s h hf,
      ⟨[], by simp, by simp⟩, ?_, fun hr => by simp [hr]⟩
    by_cases hx : (s.objects x).instance_ = none
    · exact ⟨[], by simp [show_quiet x s hx], by simp⟩
    · obtain ⟨ext, hl, hp⟩ := show_ext x s
      refine ⟨ext, hl, fun e he h hs => Or.inr ?_⟩
      have := subject_of_platform (hp e he).1
      rw [hs] at this
      cases this
      exact ⟨hx, hp e he⟩
  | cancelled x =>
    by_cases hx : (s.objects x).instance_ = none
    · rw [cancel_quiet x s hx]
      exact ⟨le_refl _, fun _ _ => rfl, fun _ _ hf => hf, ⟨[], by simp, by simp⟩,
        ⟨[], by simp, by simp⟩, fun hr => ⟨hr, rfl⟩⟩
    · refine ⟨by simp, fun h _ => by simp, fun h _ hf => by simpa using hf,
        ⟨[], by simp, by simp⟩, ?_, fun hr => by simp [hr]⟩
      obtain ⟨ext, hl, hp⟩ := cancel_ext x s
      refine ⟨ext, hl, fun e he h hs => Or.inr ?_⟩
      have := subject_of_platform (hp e he).1
      rw [hs] at this
      cases this
      exact ⟨hx, hp e he⟩
  | built supported status options callback onTrue onFalse =>
    have hobj : ∀ st h, h ≠ s.allocated → ((s.alloc st).objects h) = s.objects h := by
      intro st h hk; simp [alloc_objects, hk]
    rw [constructed_eq]
    split
    · refine ⟨by simp, fun h hk => by simp [hobj 1 h hk], fun h hk hf => by simpa [hobj 1 h hk] using hf,
        ⟨[], by simp, by simp⟩, ⟨[.callback s.allocated callback false], by simp, ?_⟩,
        fun hr => by simp [hr]⟩
      intro e he h hs
      simp at he; subst he
      simp [Effect.subject] at hs
      exact Or.inl hs.symm
    · split
      · split
        · refine ⟨by simp, fun h hk => by simp [hobj 1 h hk],
            fun h hk hf => by simpa [hobj 1 h hk] using hf,
            ⟨[_], rfl, by simp⟩, ⟨[], by simp, by simp⟩, fun hr => by simp [hr]⟩
        · rename_i hr
          refine ⟨by simp [startup], fun h hk => by simp [startup, hobj 1 h hk],
            fun h hk hf => by simpa [startup, hobj 1 h hk] using hf,
            ⟨[_], rfl, by simp⟩, ⟨[.documentOne, .setInterval s.allocated], by simp [startup], ?_⟩,
            fun hr' => absurd hr' hr⟩
          intro e he h hs
          simp at he
          rcases he with rfl | rfl <;> simp [Effect.subject, Effect.platform] at hs
      · obtain ⟨h1, h2, h3, ext, h4, h5⟩ := footprint_called
          ⟨s.allocated, options.defaults, callback, onTrue, onFalse⟩ (status == 0) (s.alloc status)
        refine ⟨by rw [← h1]; simp, ?_, ?_, ⟨[], by simp [h3], by simp⟩, ⟨ext, by simpa using h4, ?_⟩,
          fun hr => by simp [called, hr]⟩
        · intro h hk
          rw [← hobj status h hk]
          by_contra hne
          exact hk (h2 h hne)
        · intro h hk hf
          simp only [called, emit_frame]
          rw [continuation_objects _ _ _ h hk, hobj status h hk]
          exact hf
        · intro e he h hs
          have := h5 e he
          rw [hs] at this
          cases this
          exact Or.inl rfl

theorem waiting_init : Waiting State.init :=
  ⟨rfl, fun _ => rfl, fun _ => rfl, rfl, by simp [State.init], fun _ => ⟨rfl, rfl⟩,
    fun h => absurd h (by simp [State.init])⟩

theorem waiting_show (x : Nat) (s : State) (h : Waiting s) : Waiting (Notification.show x s).2 := by
  have hl := show_quiet x s (h.instances x)
  refine ⟨by simpa using h.selves, fun y => by rw [show_instance]; exact h.instances y, ?_, ?_,
    by rw [hl]; exact h.log, by simpa using h.idle, by simpa using h.polling⟩
  · intro y
    rw [show_objects]
    split
    · exact h.statuses x
    · exact h.statuses y
  · rw [(show_log x s).2, showTimers, h.instances x, h.timers]
    rfl

theorem waiting_built (options : Options) (callback : Option Nat) (onTrue onFalse : Script)
    (s : State) (h : Waiting s) :
    Waiting (constructed true 1 options callback onTrue onFalse s) ∧
    (constructed true 1 options callback onTrue onFalse s).queue =
      s.queue ++ [⟨s.allocated, options.defaults, callback, onTrue, onFalse⟩] ∧
    (constructed true 1 options callback onTrue onFalse s).allocated = s.allocated + 1 ∧
    (constructed true 1 options callback onTrue onFalse s).log =
      s.log ++ (if s.allocated = 0 then [.documentOne, .setInterval 0] else []) ∧
    ∀ y, (s.objects y).isShowCalled = true → y ≠ s.allocated →
      ((constructed true 1 options callback onTrue onFalse s).objects y).isShowCalled = true := by
  rw [constructed_eq]
  simp only [Bool.not_true, Bool.false_eq_true, if_false, if_true]
  have hobj : ∀ y, ((s.alloc 1).objects y).instance_ = none ∧
      ((s.alloc 1).objects y).notificationStatus = 1 := by
    intro y
    rw [alloc_objects]
    split
    · exact ⟨rfl, rfl⟩
    · exact ⟨h.instances y, h.statuses y⟩
  have hfl : ∀ y, (s.objects y).isShowCalled = true → y ≠ s.allocated →
      ((s.alloc 1).objects y).isShowCalled = true := by
    intro y hy hne
    rw [alloc_objects, if_neg hne]; exact hy
  have hsel : (s.queue ++ [(⟨s.allocated, options.defaults, callback, onTrue, onFalse⟩ :
      Continuation)]).map (fun k => k.self) = List.range (s.allocated + 1) := by
    rw [List.map_append, h.selves, List.range_succ]; rfl
  by_cases ha : s.allocated = 0
  · have hr := (h.idle ha).2
    have hi := (h.idle ha).1
    simp only [hr, Bool.false_eq_true, if_false, ha, if_true]
    refine ⟨⟨by simpa [startup, ha] using hsel, fun y => by simpa [startup] using (hobj y).1,
      fun y => by simpa [startup] using (hobj y).2, by simpa [startup] using h.timers, ?_,
      fun h0 => by simp [startup] at h0, fun _ => by simp [startup, hi, ha]⟩,
      by simp [startup, ha], by simp [startup, ha], by simp [startup, ha], ?_⟩
    · intro e he
      simp [startup] at he
      rcases he with he | rfl | rfl
      · exact h.log e he
      · rfl
      · rfl
    · intro y hy hne
      simpa [startup] using hfl y hy (by simpa [ha] using hne)
  · have hp := h.polling (Nat.pos_of_ne_zero ha)
    simp only [hp.2, if_true, ha, if_false, List.append_nil]
    refine ⟨⟨by simpa using hsel, fun y => (hobj y).1, fun y => (hobj y).2, h.timers,
      by simpa using h.log, fun h0 => by simp at h0, fun _ => by simpa using hp⟩, ?_⟩
    exact ⟨trivial, rfl, rfl, fun y hy hne => hfl y hy hne⟩

theorem queued_refl (s : State) (h : Waiting s) : Queued [] s s :=
  ⟨h, by simp, by simp, fun _ _ hf => hf⟩

theorem queued_trans {r1 r2 : List Continuation} {s t u : State} (h1 : Queued r1 s t)
    (h2 : Queued r2 t u) : Queued (r1 ++ r2) s u :=
  ⟨h2.waiting, by rw [h2.queue, h1.queue, List.append_assoc],
    by rw [h2.allocated, h1.allocated, List.length_append, Nat.add_assoc],
    fun y hy hf => h2.flags y (by rw [h1.allocated]; omega) (h1.flags y hy hf)⟩

theorem queued_runScript : ∀ (code : Script) (s : State), Waiting s → code.undecided = true →
    Queued (code.requests s.allocated) s (runScript code s)
  | .done, s, h, _ => queued_refl s h
  | .show x next, s, h, hu => by
    have ih := queued_runScript next _ (waiting_show x s h) (by simpa [Script.undecided] using hu)
    have h1 : Queued [] s (Notification.show x s).2 :=
      ⟨waiting_show x s h, by simp, by simp, fun y _ hf => show_flags x s y hf⟩
    have := queued_trans h1 ih
    simpa [Script.requests, runScript] using this
  | .cancel x next, s, h, hu => by
    have ih := queued_runScript next s h (by simpa [Script.undecided] using hu)
    simpa [Script.requests, runScript, cancel_quiet x s (h.instances x)] using ih
  | .notification supported status options callback onTrue onFalse next, s, h, hu => by
    simp only [Script.undecided, Bool.and_eq_true, beq_iff_eq] at hu
    obtain ⟨⟨rfl, rfl⟩, hn⟩ := hu
    obtain ⟨hw, hq, ha, _, hf⟩ := waiting_built options callback onTrue onFalse s h
    have ih := queued_runScript next _ hw hn
    have h1 : Queued [⟨s.allocated, options.defaults, callback, onTrue, onFalse⟩] s
        (constructed true 1 options callback onTrue onFalse s) :=
      ⟨hw, hq, by simp [ha], fun y hy hf' => hf y hf' (by omega)⟩
    have := queued_trans h1 ih
    rw [ha] at this
    rw [runScript_notification]
    simpa [Script.requests, calledWith] using this

theorem tick_undecided (id : Nat) (s : State) (h : Waiting s) : tick id 1 s = s := by
  unfold tick
  split
  · rename_i self _
    simp only [if_true]
    cases s with
    | mk q a o n d i t l =>
      simp only [State.modify]
      congr
      have : ({ o self with notificationStatus := 1 } : Notification) = o self := by
        have := h.statuses self
        simp only at this
        cases hs : o self
        rw [hs] at this
        simp only at this
        subst this
        rfl
      rw [this]
      exact Function.update_eq_self self o
  · rfl

theorem queued_step (e : Event) (s : State) (h : Waiting s) (hu : e.undecided = true) :
    Queued (e.requests s.allocated) s (step s e) := by
  cases e with
  | run code => exact queued_runScript code s h hu
  | tick id status =>
    simp only [Event.undecided, beq_iff_eq] at hu
    subst hu
    simp only [step, tick_undecided id s h]
    exact queued_refl s h
  | documentClick =>
    refine ⟨⟨h.selves, h.instances, h.statuses, h.timers, ?_, h.idle, h.polling⟩, by simp [step, documentClicked, Event.requests],
      rfl, fun _ _ hf => hf⟩
    intro e he
    simp only [step, documentClicked, List.mem_append] at he
    rcases he with he | he
    · exact h.log e he
    · rw [List.eq_of_mem_replicate he]; rfl
  | dispatch self kind =>
    simp only [step, dispatch, h.instances self]
    exact queued_refl s h
  | timer i =>
    simp only [step, timerFired, h.timers, List.getElem?_nil]
    exact queued_refl s h

theorem queued_runTrace : ∀ (trace : List Event) (s : State), Waiting s →
    (∀ e ∈ trace, e.undecided = true) → Queued (requestsOf s.allocated trace) s (runTrace trace s)
  | [], s, h, _ => queued_refl s h
  | e :: trace, s, h, hu => by
    have h1 := queued_step e s h (hu e (by simp))
    have h2 := queued_runTrace trace (step s e) h1.waiting (fun e' he' => hu e' (by simp [he']))
    rw [h1.allocated] at h2
    exact queued_trans h1 h2

theorem runContinuation_queue (k : Continuation) (b : Bool) (s : State) :
    ∃ ext, (runContinuation k b s).queue = s.queue ++ ext := by
  unfold runContinuation
  refine callbackBody_calls (fun t => ∃ ext, t.queue = s.queue ++ ext) ?_ _ _ _ _ _
    ⟨[], by simp [called]⟩
  intro u t c ⟨ext, hu⟩
  obtain ⟨ext', ht, _⟩ := (footprint_call u t c).queue
  exact ⟨ext ++ ext', by rw [ht, hu, List.append_assoc]⟩

theorem callQueueLoop_eq_drain (b : Bool) : ∀ (rest done extra : List Continuation) (s : State),
    s.queue = done ++ rest ++ extra →
    callQueueLoop b rest.length done.length s = drain b rest s
  | [], _, _, _, _ => rfl
  | k :: rest, done, extra, s, h => by
    have hk : s.queue[done.length]? = some k := by
      rw [h, List.append_assoc, List.getElem?_append_right (le_refl _)]; simp
    obtain ⟨ext, hq⟩ := runContinuation_queue k b s
    have ih := callQueueLoop_eq_drain b rest (done ++ [k]) (extra ++ ext) (runContinuation k b s)
      (by rw [hq, h]; simp)
    simp only [List.length_append, List.length_singleton] at ih
    simp only [List.length_cons, callQueueLoop, hk, drain, List.foldl_cons]
    exact ih

theorem callQueue_eq_drain (b : Bool) (s : State) :
    callQueue b s = { drain b s.queue s with queue := [] } := by
  unfold callQueue
  have := callQueueLoop_eq_drain b s.queue [] [] s (by simp)
  simp only [List.length_nil] at this
  simp only [this]

/-- A property kept by every step of caller code and by the closures of the
continuations `ks` up to their callback calls is kept by the drain of `ks`. -/
theorem drain_invariant (Inv : State → Prop) (b : Bool)
    (hcall : ∀ s t, Call s t → Inv s → Inv t) :
    ∀ (ks : List Continuation) (s : State), (∀ k ∈ ks, ∀ u, Inv u → Inv (called k b u)) →
      Inv s → Inv (drain b ks s)
  | [], _, _, h => h
  | k :: ks, s, hk, h => by
    simp only [drain, List.foldl_cons]
    exact drain_invariant Inv b hcall ks _ (fun k' hk' => hk k' (by simp [hk']))
      (callbackBody_calls Inv hcall _ _ _ _ _ (hk k (by simp) s h))

theorem called_callbacks (n : Nat) (k : Continuation) (b : Bool) (s : State) :
    callbacksBelow n (called k b s).log =
      callbacksBelow n s.log ++ (if k.self < n then [(k.self, k.callback, b)] else []) := by
  obtain ⟨ext, hl, hp⟩ := continuation_ext k b s
  have : callbacksBelow n ext = [] := by
    unfold callbacksBelow
    rw [List.filterMap_eq_nil_iff]
    intro e he
    have := hp e he
    cases e <;> simp_all [Effect.platform]
  simp only [called, emit_frame, hl, callbacksBelow_append, this, List.append_nil]
  congr 1
  simp only [callbacksBelow, List.filterMap_cons, List.filterMap_nil]
  split <;> simp_all

theorem callbacks_call (n : Nat) (seen : List (Nat × Option Nat × Bool)) (s t : State)
    (c : Call s t) (h : n ≤ s.allocated ∧ callbacksBelow n s.log = seen) :
    n ≤ t.allocated ∧ callbacksBelow n t.log = seen := by
  have f := footprint_call s t c
  refine ⟨le_trans h.1 f.allocated, ?_⟩
  obtain ⟨ext, hl, he⟩ := f.log
  rw [hl, callbacksBelow_append, h.2]
  have : callbacksBelow n ext = [] := by
    unfold callbacksBelow
    rw [List.filterMap_eq_nil_iff]
    intro e hm
    cases e with
    | callback self fn b =>
      have hlt : ¬ self < n := by
        intro hlt
        rcases he _ hm self rfl with h1 | ⟨_, h1⟩
        · omega
        · simp [Effect.platform] at h1
      simp [hlt]
    | _ => rfl
  rw [this, List.append_nil]

theorem drain_callbacks (n : Nat) (b : Bool) : ∀ (ks : List Continuation) (s : State),
    (∀ k ∈ ks, k.self < n) → n ≤ s.allocated →
    n ≤ (drain b ks s).allocated ∧
    callbacksBelow n (drain b ks s).log =
      callbacksBelow n s.log ++ ks.map (fun k => (k.self, k.callback, b))
  | [], s, _, h => ⟨h, by simp [drain]⟩
  | k :: ks, s, hk, h => by
    have h1 : n ≤ (runContinuation k b s).allocated ∧
        callbacksBelow n (runContinuation k b s).log =
          callbacksBelow n s.log ++ [(k.self, k.callback, b)] := by
      unfold runContinuation
      refine callbackBody_calls _ (callbacks_call n _) _ _ _ _ _ ⟨by simpa [called] using h, ?_⟩
      rw [called_callbacks, if_pos (hk k (by simp))]
    have ih := drain_callbacks n b ks _ (fun k' hk' => hk k' (by simp [hk'])) h1.1
    simp only [drain, List.foldl_cons] at ih ⊢
    refine ⟨ih.1, ?_⟩
    rw [ih.2, h1.2]
    simp

theorem polling_call (s t : State) (c : Call s t) (iv : List (Nat × Bool))
    (h : s.isAccessRequested = true ∧ s.intervals = iv) :
    t.isAccessRequested = true ∧ t.intervals = iv := by
  have := (footprint_call s t c).requested h.1
  exact ⟨this.1, this.2.trans h.2⟩

theorem drain_polling (b : Bool) (ks : List Continuation) (s : State) (iv : List (Nat × Bool))
    (h : s.isAccessRequested = true ∧ s.intervals = iv) :
    (drain b ks s).isAccessRequested = true ∧ (drain b ks s).intervals = iv :=
  drain_invariant _ b (fun s t c => polling_call s t c iv) ks s
    (fun k _ u hu => by simpa [called] using hu) h

theorem tick_decided (s : State) (h : Waiting s) (hpos : 0 < s.allocated) (d : Nat) (hd : d ≠ 1) :
    tick 0 d s = { drain (d == 0) s.queue (resolved d s) with queue := [] } := by
  have hi := (h.polling hpos).1
  unfold tick
  simp only [hi, List.getElem?_cons_zero, if_neg hd]
  rw [callQueue_eq_drain]
  simp [resolved, State.modify, hi]

theorem callbacksBelow_quiet (n : Nat) (log : List Effect) (h : ∀ e ∈ log, e.subject = none) :
    callbacksBelow n log = [] := by
  unfold callbacksBelow
  rw [List.filterMap_eq_nil_iff]
  intro e he
  have := h e he
  cases e <;> simp_all [Effect.subject]

theorem requests_selves (s : State) (ks : List Continuation) (t : State) (h : Queued ks s t)
    (hs : Waiting s) : ks.map (fun k => k.self) = (List.range ks.length).map (s.allocated + ·) := by
  have h1 := h.waiting.selves
  rw [h.queue, h.allocated, List.map_append, hs.selves, List.range_add] at h1
  exact List.append_cancel_left h1

/-- The page after the first poll tick that observes a decided answer `d`,
when `ks` was the queue of a waiting page: the log of the callbacks of the
queued objects, the queue, the intervals. -/
theorem resolution (s : State) (h : Waiting s) (hpos : 0 < s.allocated) (d : Nat) (hd : d ≠ 1) :
    Settled s.allocated (s.queue.map (fun k => (k.self, k.callback, d == 0))) (tick 0 d s) ∧
    (tick 0 d s).queue = [] ∧ (tick 0 d s).intervals = [(0, false)] := by
  rw [tick_decided s h hpos d hd]
  have hk : ∀ k ∈ s.queue, k.self < s.allocated := by
    intro k hk
    have : k.self ∈ s.queue.map (fun k => k.self) := List.mem_map_of_mem _ hk
    rw [h.selves] at this
    exact List.mem_range.1 this
  have h1 := drain_callbacks s.allocated (d == 0) s.queue (resolved d s) hk (le_refl _)
  have h2 := drain_polling (d == 0) s.queue (resolved d s) [(0, false)]
    ⟨(h.polling hpos).2, rfl⟩
  have h0 : callbacksBelow s.allocated (resolved d s).log = [] := by
    apply callbacksBelow_quiet
    intro e he
    simp only [resolved, List.mem_append, List.mem_singleton] at he
    rcases he with he | rfl
    · exact h.log e he
    · rfl
  rw [h0, List.nil_append] at h1
  exact ⟨⟨h1.1, by simp, h1.2⟩, rfl, h2.2⟩

theorem tick_cleared (id status : Nat) (s : State) (h : s.intervals = [(0, false)]) :
    tick id status s = s := by
  unfold tick
  rw [h]
  cases id <;> simp

/-- C1: let `trace` be any sequence of turns taken while the permission is
undecided (constructions with the platform capability present and
`checkPermission()` answering 1, `show()` and `cancel()` calls, poll ticks
answering 1, document clicks, ...) on a freshly loaded page, with `N >= 1`
constructions, and let the next poll tick observe a decided answer `d`.  Then
the `i`-th construction allocated object `i` and queued its continuation, no
callback was called before the tick, and after the tick the calls of the
callbacks of the `N` objects in the log are exactly one call per object, in
construction order, each with `d === 0`; the queue is empty, the interval is
cleared, a later tick changes nothing, and whatever happens later none of these
callbacks is called again. -/
theorem C1_single_resolution (trace later : List Event) (d : Nat)
    (hu : ∀ e ∈ trace, e.undecided = true) (hN : 1 ≤ (requestsOf 0 trace).length) (hd : d ≠ 1) :
    (requestsOf 0 trace).map (fun k => k.self) = List.range (requestsOf 0 trace).length ∧
    (runTrace trace State.init).queue = requestsOf 0 trace ∧
    callbacksBelow (requestsOf 0 trace).length (runTrace trace State.init).log = [] ∧
    callbacksBelow (requestsOf 0 trace).length (runTrace (trace ++ [.tick 0 d]) State.init).log =
      (requestsOf 0 trace).map (fun k => (k.self, k.callback, d == 0)) ∧
    (runTrace (trace ++ [.tick 0 d]) State.init).queue = [] ∧
    (runTrace (trace ++ [.tick 0 d]) State.init).intervals = [(0, false)] ∧
    (∀ id status, tick id status (runTrace (trace ++ [.tick 0 d]) State.init) =
      runTrace (trace ++ [.tick 0 d]) State.init) ∧
    callbacksBelow (requestsOf 0 trace).length
        (runTrace (trace ++ [.tick 0 d] ++ later) State.init).log =
      (requestsOf 0 trace).map (fun k => (k.self, k.callback, d == 0)) := by
  have hq := queued_runTrace trace State.init waiting_init hu
  have hsel := requests_selves _ _ _ hq waiting_init
  have ha : (runTrace trace State.init).allocated = (requestsOf 0 trace).length := by
    simpa [State.init] using hq.allocated
  have hqu : (runTrace trace State.init).queue = requestsOf 0 trace := by
    simpa [State.init] using hq.queue
  have hstep : runTrace (trace ++ [.tick 0 d]) State.init = tick 0 d (runTrace trace State.init) := by
    rw [runTrace_append]; rfl
  obtain ⟨hs, hq', hi⟩ := resolution _ hq.waiting (by omega) d hd
  rw [ha, hqu] at hs
  have hl := runTrace_atoms _ (settled_atom _ _) later _ hs
  refine ⟨by simpa [State.init] using hsel, hqu, callbacksBelow_quiet _ _ hq.waiting.log, ?_, ?_, ?_,
    ?_, ?_⟩
  · rw [hstep]; exact hs.log
  · rw [hstep]; exact hq'
  · rw [hstep]; exact hi
  · intro id status
    rw [hstep]; exact tick_cleared id status _ hi
  · rw [runTrace_append, hstep]; exact hl.log

theorem resolution_trace (trace : List Event) (d : Nat)
    (hu : ∀ e ∈ trace, e.undecided = true) (hN : 1 ≤ (requestsOf 0 trace).length) (hd : d ≠ 1) :
    callbacksBelow (requestsOf 0 trace).length (runTrace (trace ++ [.tick 0 d]) State.init).log =
      (requestsOf 0 trace).map (fun k => (k.self, k.callback, d == 0)) ∧
    (requestsOf 0 trace).map (fun k => k.self) = List.range (requestsOf 0 trace).length := by
  have hq := queued_runTrace trace State.init waiting_init hu
  have hsel := requests_selves _ _ _ hq waiting_init
  have ha : (runTrace trace State.init).allocated = (requestsOf 0 trace).length := by
    simpa [State.init] using hq.allocated
  have hqu : (runTrace trace State.init).queue = requestsOf 0 trace := by
    simpa [State.init] using hq.queue
  have hstep : runTrace (trace ++ [.tick 0 d]) State.init = tick 0 d (runTrace trace State.init) := by
    rw [runTrace_append]; rfl
  obtain ⟨hs, _, _⟩ := resolution _ hq.waiting (by omega) d hd
  rw [ha, hqu] at hs
  exact ⟨by rw [hstep]; exact hs.log, by simpa [State.init] using hsel⟩

theorem split_one {α : Type} (l : List α) (i : Nat) (a : α) (hi : l[i]? = some a) :
    l = l.take i ++ a :: l.drop (i + 1) := by
  obtain ⟨hl, ha⟩ := List.getElem?_eq_some_iff.1 hi
  rw [← ha, ← List.drop_eq_getElem_cons hl, List.take_append_drop]

theorem split_two {α : Type} (l : List α) (i j : Nat) (a b : α) (hij : i < j)
    (hi : l[i]? = some a) (hj : l[j]? = some b) :
    ∃ l1 l2 l3, l = l1 ++ [a] ++ l2 ++ [b] ++ l3 := by
  have h1 := split_one l j b hj
  have h2 := split_one (l.take j) i a (by rw [List.getElem?_take_of_lt hij]; exact hi)
  refine ⟨(l.take j).take i, (l.take j).drop (i + 1), l.drop (j + 1), ?_⟩
  calc l = l.take j ++ b :: l.drop (j + 1) := h1
    _ = ((l.take j).take i ++ a :: (l.take j).drop (i + 1)) ++ b :: l.drop (j + 1) := by rw [← h2]
    _ = _ := by simp

/-- C3 (amended): for every two notifications A and B that were both
constructed while `checkPermission()` answered 1, A (object `i`) before B
(object `j`), the poll tick that observes a decided answer `d` calls A's
callback before B's, both with `d === 0`; and a notification constructed while
`checkPermission()` already answers a decided value is not queued: its callback
is called inside its own construction. -/
theorem C3_queued_callbacks_in_order (trace : List Event) (d i j : Nat)
    (hu : ∀ e ∈ trace, e.undecided = true) (hd : d ≠ 1) (hij : i < j)
    (hj : j < (requestsOf 0 trace).length) :
    (∃ kA kB, (requestsOf 0 trace)[i]? = some kA ∧ (requestsOf 0 trace)[j]? = some kB ∧
      kA.self = i ∧ kB.self = j ∧
      ∃ l1 l2 l3,
        callbacksBelow (requestsOf 0 trace).length
            (runTrace (trace ++ [.tick 0 d]) State.init).log =
          l1 ++ [(i, kA.callback, d == 0)] ++ l2 ++ [(j, kB.callback, d == 0)] ++ l3) ∧
    (∀ (s : State) (status : Nat) (options : Options) (callback : Option Nat)
      (onTrue onFalse : Script), status ≠ 1 →
      (constructed true status options callback onTrue onFalse s).queue = s.queue ∧
      ∃ ext, (constructed true status options callback onTrue onFalse s).log =
        s.log ++ ext ++ [.callback s.allocated callback (status == 0)]) := by
  constructor
  · obtain ⟨hc, hs⟩ := resolution_trace trace d hu (by omega) hd
    have hi : i < (requestsOf 0 trace).length := by omega
    refine ⟨(requestsOf 0 trace)[i], (requestsOf 0 trace)[j], by simp [hi], by simp [hj], ?_, ?_, ?_⟩
    · have := congrArg (fun l => l[i]?) hs
      simpa [hi] using this
    · have := congrArg (fun l => l[j]?) hs
      simpa [hj] using this
    · rw [hc]
      have hsi : ((requestsOf 0 trace)[i]).self = i := by
        have := congrArg (fun l => l[i]?) hs
        simpa [hi] using this
      have hsj : ((requestsOf 0 trace)[j]).self = j := by
        have := congrArg (fun l => l[j]?) hs
        simpa [hj] using this
      apply split_two _ i j _ _ hij
      · simp [hi, hsi]
      · simp [hj, hsj]
  · intro s status options callback onTrue onFalse hst
    rw [constructed_eq]
    simp only [Bool.not_true, Bool.false_eq_true, if_false, if_neg hst]
    obtain ⟨ext, hl, _⟩ := continuation_ext
      ⟨s.allocated, options.defaults, callback, onTrue, onFalse⟩ (status == 0) (s.alloc status)
    exact ⟨by simp [called], ext, by simp [called, hl]⟩

/-- C3 (counterexample): A (object 0, callback 10) is constructed while
`checkPermission()` answers 1 and is queued; B (object 1, callback 11) is
constructed after the answer became 0 but before the next poll tick; the tick
then drains the queue.  B's callback is called first, A's second. -/
theorem C3_counterexample :
    callbacksBelow 2
      (runTrace
        [.run (.notification true 1 Options.empty (some 10) .done .done .done),
         .run (.notification true 0 Options.empty (some 11) .done .done .done),
         .tick 0 0] State.init).log =
      [(1, some 11, true), (0, some 10, true)] := by
  decide

/-- C3 (witness): two notifications queued while undecided, resolved by a
granting tick. -/
theorem C3_witness :
    ∃ l1 l2 l3,
      callbacksBelow 2
        (runTrace
          ([.run (.notification true 1 Options.empty (some 10) .done .done .done),
            .run (.notification true 1 Options.empty (some 11) .done .done .done)] ++
            [.tick 0 0]) State.init).log =
        l1 ++ [(0, some 10, true)] ++ l2 ++ [(1, some 11, true)] ++ l3 := by
  obtain ⟨⟨kA, kB, hA, hB, _, _, h⟩, _⟩ := C3_queued_callbacks_in_order
    [.run (.notification true 1 Options.empty (some 10) .done .done .done),
     .run (.notification true 1 Options.empty (some 11) .done .done .done)] 0 0 1
    (by decide) (by decide) (by decide) (by decide)
  have hA : kA.callback = some 10 := by
    have : kA = ⟨0, Options.empty.defaults, some 10, .done, .done⟩ := by
      simpa [requestsOf, Event.requests, Script.requests] using hA.symm
    rw [this]
  have hB : kB.callback = some 11 := by
    have : kB = ⟨1, Options.empty.defaults, some 11, .done, .done⟩ := by
      simpa [requestsOf, Event.requests, Script.requests] using hB.symm
    rw [this]
  rw [hA, hB] at h
  exact h

/-- C1 (witness): two notifications constructed while undecided, one undecided
tick, then a tick that observes the answer 2 (denied). -/
theorem C1_witness :
    callbacksBelow 2
      (runTrace
        ([.run (.notification true 1 Options.empty (some 10) .done .done
            (.notification true 1 Options.empty (some 11) .done .done .done)),
          .tick 0 1] ++ [.tick 0 2]) State.init).log =
      [(0, some 10, false), (1, some 11, false)] :=
  (C1_single_resolution
    [.run (.notification true 1 Options.empty (some 10) .done .done
        (.notification true 1 Options.empty (some 11) .done .done .done)),
      .tick 0 1] [] 2 (by decide) (by decide) (by decide)).2.2.2.1

/-- The page right after a construction on the fast path with the answer 0
(granted): the new object has its instance, listeners and timeout, and the log
ends with the creation call, the listener registrations and the callback call. -/
theorem constructed_granted (options : Options) (callback : Option Nat) (onTrue onFalse : Script)
    (s : State) :
    (constructed true 0 options callback onTrue onFalse s).objects s.allocated =
      ⟨0, false, timeoutOr options.timeout,
        some ⟨contentOf options.defaults, listenersOf options.defaults,
          replaceIdOr options.replaceId⟩⟩ ∧
    (constructed true 0 options callback onTrue onFalse s).log =
      s.log ++ [creationOf s.allocated options.defaults] ++
        (listenersOf options.defaults).map (fun l => .addEventListener s.allocated l.1 l.2) ++
        [.callback s.allocated callback true] ∧
    (constructed true 0 options callback onTrue onFalse s).timers = s.timers ∧
    (constructed true 0 options callback onTrue onFalse s).queue = s.queue ∧
    (constructed true 0 options callback onTrue onFalse s).allocated = s.allocated + 1 := by
  have key : constructed true 0 options callback onTrue onFalse s =
      called ⟨s.allocated, options.defaults, callback, onTrue, onFalse⟩ true (s.alloc 0) := by
    rw [constructed_eq]; simp
  rw [key, called, continuation_true]
  simp [alloc_objects, grantedObject, Notification.proto, Options.defaults]

/-- C4 (the code at the failing input): when `checkPermission()` answers a
decided value at construction time, the constructing call itself calls the
callback: after the call `$.notification(options, callback)` alone, with no
later turn, the log already ends with the callback call (with `true` for the
answer 0, with `false` for the answer 2). -/
theorem C4_callback_inside_constructor (s : State) (options : Options) (callback : Option Nat) :
    (runScript (.notification true 0 options callback .done .done .done) s).log =
      s.log ++ [creationOf s.allocated options.defaults] ++
        (listenersOf options.defaults).map (fun l => .addEventListener s.allocated l.1 l.2) ++
        [.callback s.allocated callback true] ∧
    (runScript (.notification true 2 options callback .done .done .done) s).log =
      s.log ++ [.callback s.allocated callback false] := by
  constructor
  · rw [runScript_notification]
    have : calledWith true 0 = some true := rfl
    simp only [this, runScript]
    cases callback <;> exact (constructed_granted options _ .done .done s).2.1
  · rw [runScript_notification]
    have : calledWith true 2 = some false := rfl
    simp only [this, runScript]
    cases callback <;>
      simp [callbackBody, runScript, constructed_eq, called, continuation]

/-- C6 (the code at the failing input): whatever `options.autoclose` is, also
`false`, source line 57 makes it `true`, so the internal cancel-on-click
listener is attached; with `{autoclose: false}` and permission granted, a
click on the instance calls `instance.cancel()`, after the caller's `onclick`
if there is one. -/
theorem C6_autoclose_false_ignored (options : Options) :
    options.defaults.autoclose = some true ∧
    (EventKind.click, Listener.selfCancel) ∈ listenersOf options.defaults ∧
    (runTrace
      [.run (.notification true 0 { Options.empty with autoclose := some false } (some 7)
        .done .done .done),
       .dispatch 0 .click] State.init).log =
      [.createNotification 0 none none none, .addEventListener 0 .click .selfCancel,
       .callback 0 (some 7) true, .instanceCancel 0] ∧
    (runTrace
      [.run (.notification true 0
        { Options.empty with autoclose := some false, onclick := some 5 } (some 7)
        .done .done .done),
       .dispatch 0 .click] State.init).log =
      [.createNotification 0 none none none, .addEventListener 0 .click (.user 5),
       .addEventListener 0 .click .selfCancel, .callback 0 (some 7) true, .listener 5,
       .instanceCancel 0] := by
  refine ⟨by simp [Options.defaults], by simp [listenersOf, Options.defaults, truthyBool],
    by decide, by decide⟩

/-- A `show()` on a notification right after its construction on the fast path
with the answer 0: the instance's `show()` is called and a timer is started
exactly when the stored timeout is finite. -/
theorem show_granted (options : Options) (callback : Option Nat) (onTrue onFalse : Script)
    (s : State) :
    ((Notification.show s.allocated
      (constructed true 0 options callback onTrue onFalse s)).2).log =
      (constructed true 0 options callback onTrue onFalse s).log ++
        [.instanceShow s.allocated] ++ expiry s.allocated (timeoutOr options.timeout) ∧
    ((Notification.show s.allocated
      (constructed true 0 options callback onTrue onFalse s)).2).timers =
      s.timers ++
        (match timeoutOr options.timeout with
          | some delay => [(s.allocated, delay)]
          | none => []) := by
  obtain ⟨ho, _, ht, _, _⟩ := constructed_granted options callback onTrue onFalse s
  rw [(show_log _ _).1, (show_log _ _).2, ho, ht]
  cases timeoutOr options.timeout <;> simp [showEffects, showTimers, expiry]

/-- C7 (the code at the failing input): with `{timeout: 0}` source line 92
stores `Infinity`, so `show()` on the granted notification calls the
instance's `show()` and starts no timer.  For comparison: with a timeout
`n + 1` each `show()` calls the instance's `show()` and starts one timer with
delay `n + 1`, whose firing calls the instance's `cancel()`; with the timeout
omitted `show()` starts no timer. -/
theorem C7_timeout_zero_never_expires (options : Options) (callback : Option Nat)
    (onTrue onFalse : Script) (s : State) (n : Nat) :
    timeoutOr (some 0) = none ∧
    ((Notification.show s.allocated
      (constructed true 0 { options with timeout := some 0 } callback onTrue onFalse s)).2).timers =
      s.timers ∧
    ((Notification.show s.allocated
      (constructed true 0 { options with timeout := some 0 } callback onTrue onFalse s)).2).log =
      (constructed true 0 { options with timeout := some 0 } callback onTrue onFalse s).log ++
        [.instanceShow s.allocated] ∧
    (runTrace
      [.run (.notification true 0 { Options.empty with timeout := some 0 } (some 7)
        .done .done .done),
       .run (.show 0 .done)] State.init).log =
      [.createNotification 0 none none none, .addEventListener 0 .click .selfCancel,
       .callback 0 (some 7) true, .instanceShow 0] ∧
    (runTrace
      [.run (.notification true 0 { Options.empty with timeout := some 0 } (some 7)
        .done .done .done),
       .run (.show 0 .done)] State.init).timers = [] ∧
    ((Notification.show s.allocated
      (constructed true 0 { options with timeout := some (n + 1) } callback onTrue onFalse
        s)).2).timers = s.timers ++ [(s.allocated, n + 1)] ∧
    ((Notification.show s.allocated
      (constructed true 0 { options with timeout := some (n + 1) } callback onTrue onFalse
        s)).2).log =
      (constructed true 0 { options with timeout := some (n + 1) } callback onTrue onFalse
        s).log ++ [.instanceShow s.allocated, .setTimeout s.allocated (n + 1)] ∧
    ((Notification.show s.allocated
      (constructed true 0 { options with timeout := none } callback onTrue onFalse s)).2).timers =
      s.timers ∧
    ((Notification.show s.allocated
      (constructed true 0 { options with timeout := none } callback onTrue onFalse s)).2).log =
      (constructed true 0 { options with timeout := none } callback onTrue onFalse s).log ++
        [.instanceShow s.allocated] ∧
    (runTrace
      [.run (.notification true 0 { Options.empty with timeout := some 3000 } (some 7)
        .done .done .done),
       .run (.show 0 .done), .timer 0] State.init).log =
      [.createNotification 0 none none none, .addEventListener 0 .click .selfCancel,
       .callback 0 (some 7) true, .instanceShow 0, .setTimeout 0 3000, .instanceCancel 0] := by
  have h0 := show_granted { options with timeout := some 0 } callback onTrue onFalse s
  have h1 := show_granted { options with timeout := some (n + 1) } callback onTrue onFalse s
  have h2 := show_granted { options with timeout := none } callback onTrue onFalse s
  refine ⟨rfl, ?_, ?_, by decide, by decide, ?_, ?_, ?_, ?_, by decide⟩
  · rw [h0.2]; simp [timeoutOr, truthyNumber]
  · rw [h0.1]; simp [timeoutOr, truthyNumber, expiry]
  · rw [h1.2]; simp [timeoutOr, truthyNumber]
  · rw [h1.1]; simp [timeoutOr, truthyNumber, expiry]
  · rw [h2.2]; simp [timeoutOr, truthyNumber]
  · rw [h2.1]; simp [timeoutOr, truthyNumber, expiry]

theorem creations_append (h : Nat) (l1 l2 : List Effect) :
    creations h (l1 ++ l2) = creations h l1 ++ creations h l2 := by
  simp [creations]

theorem subject_of_creation {e : Effect} {x : Nat} (h : e.creation = some x) : e.subject = some x := by
  cases e <;> simp_all [Effect.creation, Effect.subject, Effect.platform]

theorem creations_nil (h : Nat) (ext : List Effect) (hne : ∀ e ∈ ext, e.creation ≠ some h) :
    creations h ext = [] := by
  unfold creations
  rw [List.filter_eq_nil_iff]
  intro e he
  simpa using hne e he

theorem creations_fresh (s : State) (h : WellFormed s) (x : Nat) (hx : s.allocated ≤ x) :
    creations x s.log = [] := by
  apply creations_nil
  intro e he hc
  have := h.log e he x (subject_of_creation hc)
  omega

theorem created_atom (x : Nat) (seen : List Effect) (s t : State) (a : Atom s t)
    (h : Created x seen s) : Created x seen t := by
  have f := footprint_atom s t a
  have hq : ¬ ∃ k ∈ s.queue, k.self = x := fun ⟨k, hk, hx⟩ => h.queue k hk hx
  have ha : ¬ (x = s.allocated ∧ t.allocated = s.allocated + 1) := fun ⟨h1, _⟩ => by
    have := h.allocated; omega
  refine ⟨lt_of_lt_of_le h.allocated f.allocated, ?_, ?_⟩
  · intro k hk hx
    rcases f.queue k hk with hk | ⟨h1, h2⟩
    · exact h.queue k hk hx
    · exact ha ⟨by omega, h2⟩
  · obtain ⟨ext, hl, he⟩ := f.log
    rw [hl, creations_append, h.log, creations_nil x ext, List.append_nil]
    intro e hm hc
    rcases he e hm x (subject_of_creation hc) with h1 | h1 | ⟨_, _, h1⟩
    · exact ha h1
    · exact hq h1
    · rw [hc] at h1; cases h1

theorem creations_call (x : Nat) (seen : List Effect) (s t : State) (c : Call s t)
    (h : x < s.allocated ∧ creations x s.log = seen) :
    x < t.allocated ∧ creations x t.log = seen := by
  have f := footprint_call s t c
  refine ⟨lt_of_lt_of_le h.1 f.allocated, ?_⟩
  obtain ⟨ext, hl, he⟩ := f.log
  rw [hl, creations_append, h.2, creations_nil x ext, List.append_nil]
  intro e hm hc
  rcases he e hm x (subject_of_creation hc) with h1 | ⟨_, _, h1⟩
  · omega
  · rw [hc] at h1; cases h1

theorem creations_called (x : Nat) (seen : List Effect) (k : Continuation) (b : Bool) (s : State)
    (hk : k.self ≠ x) (h : x < s.allocated ∧ creations x s.log = seen) :
    x < (called k b s).allocated ∧ creations x (called k b s).log = seen := by
  obtain ⟨h1, _, _, ext, h4, h5⟩ := footprint_called k b s
  refine ⟨by rw [← h1]; exact h.1, ?_⟩
  rw [h4, creations_append, h.2, creations_nil x ext, List.append_nil]
  intro e hm hc
  have := h5 e hm
  rw [subject_of_creation hc] at this
  cases this
  exact hk rfl

theorem called_creations (k : Continuation) (s : State) :
    creations k.self (called k true s).log =
      creations k.self s.log ++ [creationOf k.self k.options] := by
  have h1 : creations k.self [creationOf k.self k.options] = [creationOf k.self k.options] := by
    unfold creationOf creations
    split <;> simp [Effect.creation]
  have h2 : creations k.self
      ((listenersOf k.options).map (fun l => Effect.addEventListener k.self l.1 l.2)) = [] := by
    apply creations_nil
    intro e he
    simp only [List.mem_map] at he
    obtain ⟨l, _, rfl⟩ := he
    simp [Effect.creation]
  have h3 : ∀ o, creations k.self (showEffects k.self o) = [] := by
    intro o
    apply creations_nil
    intro e he
    rw [(showEffects_platform _ _ e he).2]
    simp
  have h4 : creations k.self [Effect.callback k.self k.callback true] = [] := by
    simp [creations, Effect.creation]
  simp only [called, continuation_true, emit_frame, creations_append, h1, h2, h4]
  split
  · rw [h3]; simp
  · simp [creations]

theorem drain_append (b : Bool) (l1 l2 : List Continuation) (s : State) :
    drain b (l1 ++ l2) s = drain b l2 (drain b l1 s) := by
  simp [drain, List.foldl_append]

theorem drain_cons (b : Bool) (k : Continuation) (ks : List Continuation) (s : State) :
    drain b (k :: ks) s = drain b ks (runContinuation k b s) := rfl

/-- In a queue whose continuations belong to the objects `0, 1, ..., n - 1` in
this order, the continuation of the object `i` is the `i`-th one and no other
continuation belongs to `i`. -/
theorem split_queue (ks : List Continuation) (i : Nat) (k : Continuation)
    (hs : ks.map (fun k => k.self) = List.range ks.length) (hk : ks[i]? = some k) :
    k.self = i ∧ ks = ks.take i ++ k :: ks.drop (i + 1) ∧
    (∀ k' ∈ ks.take i, k'.self ≠ i) ∧ (∀ k' ∈ ks.drop (i + 1), k'.self ≠ i) := by
  have hi : i < ks.length := (List.getElem?_eq_some_iff.1 hk).1
  have hself : k.self = i := by
    have := congrArg (fun l => l[i]?) hs
    simp only [List.getElem?_map, hk, Option.map_some', List.getElem?_range hi] at this
    exact Option.some.inj this
  have hsplit := split_one ks i k hk
  have hnd : (ks.map (fun k => k.self)).Nodup := by rw [hs]; exact List.nodup_range _
  rw [hsplit, List.map_append, List.map_cons, hself] at hnd
  have hnd := List.nodup_middle.1 hnd
  have hni := (List.nodup_cons.1 hnd).1
  refine ⟨hself, hsplit, ?_, ?_⟩
  · intro k' hk' he
    have hm : k'.self ∈ (ks.take i).map (fun k => k.self) := List.mem_map_of_mem _ hk'
    rw [he] at hm
    exact hni (List.mem_append_left _ hm)
  · intro k' hk' he
    have hm : k'.self ∈ (ks.drop (i + 1)).map (fun k => k.self) := List.mem_map_of_mem _ hk'
    rw [he] at hm
    exact hni (List.mem_append_right _ hm)

/-- The drain of a queue in allocation order, seen from the object `i`: a
property `Before` kept by caller code and by the closures of the other objects,
turned into `After` by the closure of `i`, which is kept likewise. -/
theorem drain_around (Before After : State → Prop) (b : Bool) (ks : List Continuation) (i : Nat)
    (k : Continuation) (hs : ks.map (fun k => k.self) = List.range ks.length)
    (hk : ks[i]? = some k)
    (hcall1 : ∀ s t, Call s t → Before s → Before t)
    (hcalled1 : ∀ k' : Continuation, k'.self ≠ i → ∀ u, Before u → Before (called k' b u))
    (hmid : ∀ u, Before u → After (called k b u))
    (hcall2 : ∀ s t, Call s t → After s → After t)
    (hcalled2 : ∀ k' : Continuation, k'.self ≠ i → ∀ u, After u → After (called k' b u))
    (s : State) (h : Before s) : After (drain b ks s) := by
  obtain ⟨_, hsplit, hpre, hpost⟩ := split_queue ks i k hs hk
  rw [hsplit, drain_append, drain_cons]
  apply drain_invariant After b hcall2 _ _ (fun k' hk' => hcalled2 k' (hpost k' hk'))
  unfold runContinuation
  apply callbackBody_calls After hcall2
  apply hmid
  exact drain_invariant Before b hcall1 _ _ (fun k' hk' => hcalled1 k' (hpre k' hk')) h

theorem about_nil (h : Nat) (ext : List Effect) (hne : ∀ e ∈ ext, e.subject ≠ some h) :
    about h ext = [] := by
  unfold about
  rw [List.filter_eq_nil_iff]
  intro e he
  simpa using hne e he

theorem about_all (h : Nat) (ext : List Effect) (hall : ∀ e ∈ ext, e.subject = some h) :
    about h ext = ext := by
  unfold about
  rw [List.filter_eq_self]
  intro e he
  simpa using hall e he

theorem dormant_call (i : Nat) (seen : List Effect) (s t : State) (c : Call s t)
    (h : Dormant i seen s) : Dormant i seen t := by
  have f := footprint_call s t c
  have hi : i ≠ s.allocated := Nat.ne_of_lt h.allocated
  refine ⟨lt_of_lt_of_le h.allocated f.allocated, by rw [f.instances i hi]; exact h.instance_, ?_⟩
  obtain ⟨ext, hl, he⟩ := f.log
  rw [hl, about_append, h.log, about_nil i ext, List.append_nil]
  intro e hm hs
  rcases he e hm i hs with h1 | ⟨h1, _⟩
  · exact hi h1
  · exact h1 h.instance_

theorem dormant_called (i : Nat) (seen : List Effect) (k : Continuation) (b : Bool) (s : State)
    (hk : k.self ≠ i) (h : Dormant i seen s) : Dormant i seen (called k b s) := by
  obtain ⟨h1, h2, _, ext, h4, h5⟩ := footprint_called k b s
  refine ⟨by rw [← h1]; exact h.allocated, ?_, ?_⟩
  · by_contra hne
    exact hk (h2 i (by rw [h.instance_]; exact hne)).symm
  · rw [h4, about_append, h.log, about_nil i ext, List.append_nil]
    intro e hm hs
    have := h5 e hm
    rw [hs] at this
    exact hk (Option.some.inj this).symm

theorem flagged_call (i : Nat) (s t : State) (c : Call s t)
    (h : i < s.allocated ∧ (s.objects i).isShowCalled = true) :
    i < t.allocated ∧ (t.objects i).isShowCalled = true := by
  have f := footprint_call s t c
  exact ⟨lt_of_lt_of_le h.1 f.allocated, f.flags i (Nat.ne_of_lt h.1) h.2⟩

theorem flagged_called (i : Nat) (k : Continuation) (b : Bool) (s : State) (hk : k.self ≠ i)
    (h : i < s.allocated ∧ (s.objects i).isShowCalled = true) :
    i < (called k b s).allocated ∧ ((called k b s).objects i).isShowCalled = true := by
  refine ⟨by simpa [called] using h.1, ?_⟩
  simp only [called, emit_frame]
  rw [continuation_objects k b s i (Ne.symm hk)]
  exact h.2

/-- The calls the closure of source lines 71-98 makes for its object when it
is called with `true` after an early `show()`, in order, up to the callback. -/
theorem called_shown (k : Continuation) (s : State) (seen : List Effect)
    (h : Dormant k.self seen s) (hf : (s.objects k.self).isShowCalled = true) :
    about k.self (called k true s).log =
      seen ++ [creationOf k.self k.options] ++
        (listenersOf k.options).map (fun l => .addEventListener k.self l.1 l.2) ++
        [.instanceShow k.self] ++ expiry k.self (timeoutOr k.options.timeout) ++
        [.callback k.self k.callback true] := by
  have hshow : showEffects k.self (grantedObject k (s.objects k.self)) =
      [.instanceShow k.self] ++ expiry k.self (timeoutOr k.options.timeout) := by
    unfold showEffects grantedObject expiry
    cases timeoutOr k.options.timeout <;> rfl
  simp only [called, continuation_true, emit_frame, hf, if_true, hshow, about_append, h.log]
  have h1 : about k.self [creationOf k.self k.options] = [creationOf k.self k.options] := by
    apply about_all
    intro e he
    simp only [List.mem_singleton] at he
    subst he
    unfold creationOf
    split <;> rfl
  have h2 : about k.self
      ((listenersOf k.options).map (fun l => Effect.addEventListener k.self l.1 l.2)) =
      (listenersOf k.options).map (fun l => Effect.addEventListener k.self l.1 l.2) := by
    apply about_all
    intro e he
    simp only [List.mem_map] at he
    obtain ⟨l, _, rfl⟩ := he
    rfl
  have h3 : about k.self [Effect.instanceShow k.self] = [Effect.instanceShow k.self] := by
    simp [about, Effect.subject, Effect.platform]
  have h4 : about k.self (expiry k.self (timeoutOr k.options.timeout)) =
      expiry k.self (timeoutOr k.options.timeout) := by
    unfold expiry
    cases timeoutOr k.options.timeout <;> simp [about, Effect.subject, Effect.platform]
  have h5 : about k.self [Effect.callback k.self k.callback true] =
      [Effect.callback k.self k.callback true] := by
    simp [about, Effect.subject]
  rw [h1, h2, h3, h4, h5]
  simp

theorem began_call (i : Nat) (start : List Effect) (s t : State) (c : Call s t)
    (h : ∃ post, about i s.log = start ++ post) : ∃ post, about i t.log = start ++ post := by
  obtain ⟨post, hp⟩ := h
  obtain ⟨ext, hl, _⟩ := (footprint_call s t c).log
  exact ⟨post ++ about i ext, by rw [hl, about_append, hp, List.append_assoc]⟩

theorem began_called (i : Nat) (start : List Effect) (k : Continuation) (b : Bool) (s : State)
    (h : ∃ post, about i s.log = start ++ post) :
    ∃ post, about i (called k b s).log = start ++ post := by
  obtain ⟨post, hp⟩ := h
  obtain ⟨_, _, _, ext, hl, _⟩ := footprint_called k b s
  exact ⟨post ++ about i ext, by rw [hl, about_append, hp, List.append_assoc]⟩

theorem waiting_length (s : State) (h : Waiting s) : s.queue.length = s.allocated := by
  have := congrArg List.length h.selves
  simpa using this

theorem waiting_selves (s : State) (h : Waiting s) :
    s.queue.map (fun k => k.self) = List.range s.queue.length := by
  rw [waiting_length s h]; exact h.selves

theorem waiting_index (s : State) (h : Waiting s) (i : Nat) (k : Continuation)
    (hk : s.queue[i]? = some k) : i < s.allocated ∧ k.self = i := by
  have hi : i < s.queue.length := (List.getElem?_eq_some_iff.1 hk).1
  exact ⟨by rw [← waiting_length s h]; exact hi,
    (split_queue s.queue i k (waiting_selves s h) hk).1⟩

theorem resolved_quiet (s : State) (h : Waiting s) (d : Nat) :
    ∀ e ∈ (resolved d s).log, e.subject = none := by
  intro e he
  simp only [resolved, List.mem_append, List.mem_singleton] at he
  rcases he with he | rfl
  · exact h.log e he
  · rfl

theorem resolved_dormant (s : State) (h : Waiting s) (d i : Nat) (hi : i < s.allocated) :
    Dormant i [] (resolved d s) := by
  refine ⟨hi, ?_, ?_⟩
  · simp only [resolved, State.modify, Function.update_apply]
    split
    · exact h.instances 0
    · exact h.instances i
  · apply about_nil
    intro e he
    rw [resolved_quiet s h d e he]
    simp

theorem resolved_flag (s : State) (d i : Nat) (hf : (s.objects i).isShowCalled = true) :
    ((resolved d s).objects i).isShowCalled = true := by
  simp only [resolved, State.modify, Function.update_apply]
  split
  · rename_i h0; rw [h0] at hf; exact hf
  · exact hf

/-- The object `i` after the granting tick: one creation call was made for it. -/
theorem resolution_created (s : State) (h : Waiting s) (i : Nat) (k : Continuation)
    (hk : s.queue[i]? = some k) :
    Created i [creationOf i k.options] (tick 0 0 s) := by
  obtain ⟨hi, hself⟩ := waiting_index s h i k hk
  rw [tick_decided s h (by omega) 0 (by decide)]
  have h0 : i < (resolved 0 s).allocated ∧ creations i (resolved 0 s).log = [] := by
    refine ⟨hi, creations_nil _ _ ?_⟩
    intro e he hc
    have := resolved_quiet s h 0 e he
    rw [subject_of_creation hc] at this
    cases this
  have := drain_around (fun u => i < u.allocated ∧ creations i u.log = [])
    (fun u => i < u.allocated ∧ creations i u.log = [creationOf i k.options]) true s.queue i k
    (waiting_selves s h) hk (creations_call i _)
    (fun k' hk' u hu => creations_called i _ k' true u hk' hu)
    (fun u hu => by
      refine ⟨by simpa [called] using hu.1, ?_⟩
      have := called_creations k u
      rw [hself, hu.2] at this
      simpa using this)
    (creations_call i _) (fun k' hk' u hu => creations_called i _ k' true u hk' hu)
    (resolved 0 s) h0
  exact ⟨this.1, by simp, this.2⟩

/-- The object `i` after the granting tick when `show()` was called on it
early: what belongs to it in the log starts with the creation call, the
listener registrations, one `show()` of the instance with its timer, and then
the callback call. -/
theorem resolution_shown (s : State) (h : Waiting s) (i : Nat) (k : Continuation)
    (hk : s.queue[i]? = some k) (hf : (s.objects i).isShowCalled = true) :
    ∃ post, about i (tick 0 0 s).log =
      ([creationOf i k.options] ++
        (listenersOf k.options).map (fun l => .addEventListener i l.1 l.2) ++
        [.instanceShow i] ++ expiry i (timeoutOr k.options.timeout) ++
        [.callback i k.callback true]) ++ post := by
  obtain ⟨hi, hself⟩ := waiting_index s h i k hk
  rw [tick_decided s h (by omega) 0 (by decide)]
  exact drain_around
    (fun u => Dormant i [] u ∧ i < u.allocated ∧ (u.objects i).isShowCalled = true) _
    true s.queue i k (waiting_selves s h) hk
    (fun u t c hu => ⟨dormant_call i _ u t c hu.1, flagged_call i u t c hu.2⟩)
    (fun k' hk' u hu => ⟨dormant_called i _ k' true u hk' hu.1, flagged_called i k' true u hk' hu.2⟩)
    (fun u hu => by
      have := called_shown k u [] (hself ▸ hu.1) (hself ▸ hu.2.2)
      rw [hself] at this
      exact ⟨[], by rw [this]; simp⟩)
    (began_call i _) (fun k' _ u hu => began_called i _ k' true u hu)
    (resolved 0 s) ⟨resolved_dormant s h 0 i hi, hi, resolved_flag s 0 i hf⟩

/-- The object `i` after a denying tick: it has no instance, no queued
continuation, and all that belongs to it in the log is the callback call. -/
theorem resolution_denied (s : State) (h : Waiting s) (i d : Nat) (k : Continuation)
    (hk : s.queue[i]? = some k) (hd : d ≠ 1) (hd0 : d ≠ 0) :
    Inert i [.callback i k.callback false] (tick 0 d s) := by
  obtain ⟨hi, hself⟩ := waiting_index s h i k hk
  rw [tick_decided s h (by omega) d hd]
  have hb : (d == 0) = false := by simpa using hd0
  rw [hb]
  have := drain_around (Dormant i []) (Dormant i [.callback i k.callback false])
    false s.queue i k (waiting_selves s h) hk
    (dormant_call i _) (fun k' hk' u hu => dormant_called i _ k' false u hk' hu)
    (fun u hu => by
      refine ⟨by simpa [called] using hu.allocated, by simpa [called, continuation] using hu.instance_,
        ?_⟩
      have hl : (called k false u).log = u.log ++ [.callback i k.callback false] := by
        simp [called, continuation, hself]
      rw [hl, about_append, hu.log]
      simp [about, Effect.subject])
    (dormant_call i _) (fun k' hk' u hu => dormant_called i _ k' false u hk' hu)
    (resolved d s) (resolved_dormant s h d i hi)
  exact ⟨this.allocated, this.instance_, by simp, this.log⟩

theorem constructed_granted_eq (options : Options) (callback : Option Nat)
    (onTrue onFalse : Script) (s : State) :
    constructed true 0 options callback onTrue onFalse s =
      called ⟨s.allocated, options.defaults, callback, onTrue, onFalse⟩ true (s.alloc 0) := by
  rw [constructed_eq]; simp

/-- The state in which an early `show()` on the object `i` has been recorded
and further undecided turns have passed. -/
theorem early_show (tr1 tr2 : List Event) (i : Nat) (k : Continuation)
    (hu1 : ∀ e ∈ tr1, e.undecided = true) (hu2 : ∀ e ∈ tr2, e.undecided = true)
    (hk : (requestsOf 0 tr1)[i]? = some k) :
    (runTrace (tr1 ++ [.run (.show i .done)]) State.init).log = (runTrace tr1 State.init).log ∧
    Waiting (runTrace (tr1 ++ [.run (.show i .done)] ++ tr2) State.init) ∧
    (runTrace (tr1 ++ [.run (.show i .done)] ++ tr2) State.init).queue[i]? = some k ∧
    ((runTrace (tr1 ++ [.run (.show i .done)] ++ tr2) State.init).objects i).isShowCalled = true := by
  have h1 := queued_runTrace tr1 State.init waiting_init hu1
  have hq1 : (runTrace tr1 State.init).queue = requestsOf 0 tr1 := by
    simpa [State.init] using h1.queue
  have hi : i < (requestsOf 0 tr1).length := (List.getElem?_eq_some_iff.1 hk).1
  have ha1 : (runTrace tr1 State.init).allocated = (requestsOf 0 tr1).length := by
    simpa [State.init] using h1.allocated
  have hstep : runTrace (tr1 ++ [.run (.show i .done)]) State.init =
      (Notification.show i (runTrace tr1 State.init)).2 := by
    rw [runTrace_append]; rfl
  have hw := waiting_show i _ h1.waiting
  have hf : (((Notification.show i (runTrace tr1 State.init)).2).objects i).isShowCalled = true := by
    rw [show_objects, if_pos ⟨rfl, h1.waiting.instances i⟩]
  have h2 := queued_runTrace tr2 _ hw hu2
  have hall : runTrace (tr1 ++ [.run (.show i .done)] ++ tr2) State.init =
      runTrace tr2 ((Notification.show i (runTrace tr1 State.init)).2) := by
    rw [runTrace_append, hstep]
  rw [hall, hstep]
  refine ⟨show_quiet i _ (h1.waiting.instances i), h2.waiting, ?_, ?_⟩
  · rw [h2.queue]
    simp only [show_frame, hq1]
    rw [List.getElem?_append_left hi]
    exact hk
  · exact h2.flags i (by simpa [ha1] using hi) hf

/-- C8: let object `i` be a notification constructed while the permission is
undecided (continuation `k`), let `show()` be called on it before the
resolution (any undecided turns before and after).  `show()` returns the handle
it is called on; the early `show()` makes no call at all, and before the
resolution nothing in the log belongs to the object.  If the resolving tick
observes the answer 0, what belongs to the object in the log starts with: the
creation call, the listener registrations, exactly one `show()` of the
instance (with its timer if the timeout is finite), and only then the call
`callback(true)`.  If the tick observes a denying answer `d`, then whatever
happens later the object has no instance and the call `callback(false)` is all
that ever belongs to it: no instance is created and no platform `show()` is
made. -/
theorem C8_deferred_show (tr1 tr2 later : List Event) (i d : Nat) (k : Continuation)
    (hu1 : ∀ e ∈ tr1, e.undecided = true) (hu2 : ∀ e ∈ tr2, e.undecided = true)
    (hk : (requestsOf 0 tr1)[i]? = some k) (hd : d ≠ 1) (hd0 : d ≠ 0) :
    (∀ s : State, (Notification.show i s).1 = i) ∧
    runTrace (tr1 ++ [.run (.show i .done)]) State.init =
      (Notification.show i (runTrace tr1 State.init)).2 ∧
    (Notification.show i (runTrace tr1 State.init)).2.log = (runTrace tr1 State.init).log ∧
    about i (runTrace (tr1 ++ [.run (.show i .done)] ++ tr2) State.init).log = [] ∧
    (∃ post,
      about i (runTrace (tr1 ++ [.run (.show i .done)] ++ tr2 ++ [.tick 0 0]) State.init).log =
        ([creationOf i k.options] ++
          (listenersOf k.options).map (fun l => .addEventListener i l.1 l.2) ++
          [.instanceShow i] ++ expiry i (timeoutOr k.options.timeout) ++
          [.callback i k.callback true]) ++ post) ∧
    ((runTrace (tr1 ++ [.run (.show i .done)] ++ tr2 ++ [.tick 0 d] ++ later)
      State.init).objects i).instance_ = none ∧
    about i (runTrace (tr1 ++ [.run (.show i .done)] ++ tr2 ++ [.tick 0 d] ++ later)
      State.init).log = [.callback i k.callback false] := by
  obtain ⟨h1, hw, hq, hf⟩ := early_show tr1 tr2 i k hu1 hu2 hk
  have hturn : runTrace (tr1 ++ [.run (.show i .done)]) State.init =
      (Notification.show i (runTrace tr1 State.init)).2 := by
    rw [runTrace_append]; rfl
  have htick : ∀ d', runTrace (tr1 ++ [.run (.show i .done)] ++ tr2 ++ [.tick 0 d']) State.init =
      tick 0 d' (runTrace (tr1 ++ [.run (.show i .done)] ++ tr2) State.init) := by
    intro d'; rw [runTrace_append]; rfl
  have hden := runTrace_atoms _ (inert_atom i _) later _ (resolution_denied _ hw i d k hq hd hd0)
  refine ⟨fun _ => rfl, hturn, by rw [← hturn]; exact h1, ?_, ?_, ?_, ?_⟩
  · apply about_nil
    intro e he
    rw [hw.log e he]
    simp
  · rw [htick]
    exact resolution_shown _ hw i k hq hf
  · rw [runTrace_append, htick]
    exact hden.instance_
  · rw [runTrace_append, htick]
    exact hden.log

theorem truthyString_some (u : String) : truthyString (some u) = true ↔ u ≠ "" := by
  simp [truthyString]

/-- The object constructed on the fast path with the answer 0: one creation
call was made for it, and it has no queued continuation. -/
theorem fast_created (s : State) (hw : WellFormed s) (options : Options) (callback : Option Nat)
    (onTrue onFalse : Script) :
    Created s.allocated [creationOf s.allocated options]
      (constructed true 0 options callback onTrue onFalse s) := by
  rw [constructed_granted_eq]
  refine ⟨by simp [called], ?_, ?_⟩
  · intro k hk
    have := hw.queue k (by simpa [called] using hk)
    omega
  · have := called_creations ⟨s.allocated, options.defaults, callback, onTrue, onFalse⟩ (s.alloc 0)
    simp only [alloc_frame, creations_fresh s hw s.allocated (le_refl _), List.nil_append] at this
    rw [this]
    rfl

/-- C9 (amended): with permission granted, exactly one platform creation call
is ever made for the notification object, on the fast path (answer 0 at
construction, any reachable state, whatever happens later) as well as on the
queued path (object `i` with continuation `k` constructed while undecided,
resolved by a granting tick, whatever happens later); the call is
`createHTMLNotification(options.url)` if `options.url` is a non-empty string,
whatever icon, title and content are, and
`createNotification(options.icon, options.title, options.content)` if
`options.url` is omitted or the empty string. -/
theorem C9_one_creation_mode_by_url (before later trace : List Event) (options : Options)
    (callback : Option Nat) (onTrue onFalse next : Script) (i : Nat) (k : Continuation)
    (hu : ∀ e ∈ trace, e.undecided = true) (hk : (requestsOf 0 trace)[i]? = some k) :
    creations (runTrace before State.init).allocated
      (runTrace later (runScript (.notification true 0 options callback onTrue onFalse next)
        (runTrace before State.init))).log =
      [creationOf (runTrace before State.init).allocated options] ∧
    creations i (runTrace (trace ++ [.tick 0 0] ++ later) State.init).log =
      [creationOf i k.options] ∧
    (∀ (h : Nat) (o : Options) (u : String), o.url = some u → u ≠ "" →
      creationOf h o = .createHTMLNotification h (some u)) ∧
    (∀ (h : Nat) (o : Options), o.url = none ∨ o.url = some "" →
      creationOf h o = .createNotification h o.icon o.title o.content) := by
  refine ⟨?_, ?_, ?_, ?_⟩
  · have hw := wellFormed_reachable before
    generalize runTrace before State.init = s at hw
    have hc := fast_created s hw options callback onTrue onFalse
    rw [runScript_notification]
    have : calledWith true 0 = some true := rfl
    simp only [this]
    exact (runTrace_atoms _ (created_atom s.allocated _) later _
      (runScript_atoms _ (created_atom s.allocated _) next _
        (callbackBody_atoms _ (created_atom s.allocated _) callback onTrue onFalse true _ hc))).log
  · have hq := queued_runTrace trace State.init waiting_init hu
    have hqu : (runTrace trace State.init).queue[i]? = some k := by
      rw [hq.queue]; simpa [State.init] using hk
    have hc := resolution_created _ hq.waiting i k hqu
    have hstep : runTrace (trace ++ [.tick 0 0] ++ later) State.init =
        runTrace later (tick 0 0 (runTrace trace State.init)) := by
      rw [runTrace_append, runTrace_append]; rfl
    rw [hstep]
    exact (runTrace_atoms _ (created_atom i _) later _ hc).log
  · intro h o u hu hne
    simp [creationOf, hu, truthyString, hne]
  · intro h o ho
    rcases ho with ho | ho <;> simp [creationOf, ho, truthyString]

/-- C9 (counterexample): the options `{url: ""}` pass a url, yet with
permission granted the instance is created by `createNotification`. -/
theorem C9_counterexample :
    creations 0
      (runTrace
        [.run (.notification true 0 { Options.empty with url := some "" } (some 7)
          .done .done .done)] State.init).log =
      [.createNotification 0 none none none] := by
  decide

/-- C9 (witness): `{url: "a", icon: "b"}` on the queued path: one creation
call, in HTML mode. -/
theorem C9_witness :
    creations 0
      (runTrace
        ([.run (.notification true 1 { Options.empty with url := some "a", icon := some "b" }
          (some 7) .done .done .done)] ++ [.tick 0 0] ++ []) State.init).log =
      [.createHTMLNotification 0 (some "a")] := by
  have h := (C9_one_creation_mode_by_url [] []
    [.run (.notification true 1 { Options.empty with url := some "a", icon := some "b" }
      (some 7) .done .done .done)]
    { Options.empty with url := some "a", icon := some "b" } (some 7) .done .done .done 0
    ⟨0, Options.defaults { Options.empty with url := some "a", icon := some "b" }, some 7,
      .done, .done⟩
    (by decide) (by decide)).2.1
  rw [h]
  decide

/-- C8 (witness): a notification with `{timeout: 3000}` constructed while
undecided, `show()` called early, one undecided tick, then the resolving tick. -/
theorem C8_witness :
    ∃ post,
      about 0
        (runTrace
          ([.run (.notification true 1 { Options.empty with timeout := some 3000 } (some 7)
              .done .done .done)] ++
            [.run (.show 0 .done)] ++ [.tick 0 1] ++ [.tick 0 0]) State.init).log =
        ([.createNotification 0 none none none] ++
          [.addEventListener 0 .click .selfCancel] ++
          [.instanceShow 0] ++ [.setTimeout 0 3000] ++ [.callback 0 (some 7) true]) ++ post := by
  obtain ⟨post, h⟩ := (C8_deferred_show
    [.run (.notification true 1 { Options.empty with timeout := some 3000 } (some 7)
      .done .done .done)]
    [.tick 0 1] [] 0 2
    ⟨0, Options.defaults { Options.empty with timeout := some 3000 }, some 7, .done, .done⟩
    (by decide) (by decide) (by decide) (by decide) (by decide)).2.2.2.2.1
  exact ⟨post, h⟩

theorem call_atom (s t : State) (c : Call s t) : Atom s t := by
  cases c with
  | shown x => exact .shown x s
  | cancelled x => exact .cancelled x s
  | built a b c d e f => exact .built a b c d e f s

/-- What a step of caller code does to the queue: nothing, or it pushes the
continuation of the object it allocates, which is then dormant. -/
theorem call_queue (s t : State) (c : Call s t) (hw : WellFormed s) :
    t.queue = s.queue ∨
    ∃ k, t.queue = s.queue ++ [k] ∧ k.self = s.allocated ∧ Dormant s.allocated [] t := by
  cases c with
  | shown x => exact Or.inl (by simp)
  | cancelled x => exact Or.inl (by simp)
  | built supported status options callback onTrue onFalse =>
    rw [constructed_eq]
    have hfresh := about_fresh s hw s.allocated (le_refl _)
    have hobj : ((s.alloc 1).objects s.allocated).instance_ = none := by
      simp [alloc_objects, Notification.proto]
    split
    · exact Or.inl (by simp)
    · split
      · split
        · exact Or.inr ⟨_, rfl, rfl, by simp, hobj, by simpa using hfresh⟩
        · refine Or.inr ⟨⟨s.allocated, options.defaults, callback, onTrue, onFalse⟩,
            by simp [startup], rfl, by simp [startup], by simpa [startup] using hobj, ?_⟩
          simp only [startup, alloc_frame, about_append, hfresh, List.nil_append]
          simp [about, Effect.subject, Effect.platform]
      · exact Or.inl (by simp [called])

theorem draining_call (q0 : List Continuation) (a0 : Nat) (s t : State) (c : Call s t)
    (h : Draining q0 a0 s) : Draining q0 a0 t := by
  have f := footprint_call s t c
  obtain ⟨ext, hq, hext⟩ := h.pushed
  refine ⟨wellFormed_atom s t (call_atom s t c) h.wellFormed, le_trans h.allocated f.allocated, ?_⟩
  have hold : ∀ k ∈ ext, a0 ≤ k.self ∧ Dormant k.self [] t :=
    fun k hk => ⟨(hext k hk).1, dormant_call k.self [] s t c (hext k hk).2⟩
  rcases call_queue s t c h.wellFormed with hs | ⟨k, hk, hself, hd⟩
  · exact ⟨ext, by rw [hs, hq], hold⟩
  · refine ⟨ext ++ [k], by rw [hk, hq, List.append_assoc], ?_⟩
    intro k' hk'
    rcases List.mem_append.1 hk' with hk' | hk'
    · exact hold k' hk'
    · simp only [List.mem_singleton] at hk'
      subst hk'
      rw [hself]
      exact ⟨h.allocated, hd⟩

theorem draining_called (q0 : List Continuation) (a0 : Nat) (k : Continuation) (b : Bool)
    (s : State) (hk : k ∈ q0) (ha : k.self < a0) (h : Draining q0 a0 s) :
    Draining q0 a0 (called k b s) := by
  obtain ⟨ext, hq, hext⟩ := h.pushed
  have hmem : k ∈ s.queue := by rw [hq]; exact List.mem_append_left _ hk
  refine ⟨wellFormed_atom s _ (.called k b s hmem) h.wellFormed, by simpa [called] using h.allocated,
    ext, by simpa [called] using hq, ?_⟩
  intro k' hk'
  have := hext k' hk'
  exact ⟨this.1, dormant_called k'.self [] k b s (by omega) this.2⟩

theorem draining_drain (b : Bool) (s : State) (hw : WellFormed s) :
    Draining s.queue s.allocated (drain b s.queue s) :=
  drain_invariant (Draining s.queue s.allocated) b (draining_call _ _) s.queue s
    (fun k hk u hu => draining_called _ _ k b u hk (hw.queue k hk) hu)
    ⟨hw, le_refl _, [], by simp, by simp⟩

/-- C10 (amended): `Notification.callQueue`, called in any reachable state with
any boolean and for every behaviour of the queued continuations (also ones that
construct notifications which push further continuations during the drain),
calls the continuations that were in the queue when the drain started one
after the other in insertion order, each once and with that boolean: the calls
of the callbacks of the objects that existed at the start which the drain adds
to the log are exactly one per queued continuation, in queue order.  A
continuation pushed during the drain belongs to an object allocated during the
drain and is not invoked in that pass; the drain then empties the queue, so it
is not pending afterwards, and whatever happens later nothing that belongs to
its object is ever logged. -/
theorem C10_drain_calls_initial_queue_and_drops_late (before later : List Event) (b : Bool) :
    callQueue b (runTrace before State.init) =
      { drain b (runTrace before State.init).queue (runTrace before State.init) with queue := [] } ∧
    callbacksBelow (runTrace before State.init).allocated
        (callQueue b (runTrace before State.init)).log =
      callbacksBelow (runTrace before State.init).allocated (runTrace before State.init).log ++
        (runTrace before State.init).queue.map (fun k => (k.self, k.callback, b)) ∧
    (∃ ext,
      (callQueueLoop b (runTrace before State.init).queue.length 0
        (runTrace before State.init)).queue = (runTrace before State.init).queue ++ ext ∧
      ∀ k ∈ ext, (runTrace before State.init).allocated ≤ k.self ∧
        about k.self (callQueue b (runTrace before State.init)).log = [] ∧
        about k.self (runTrace later (callQueue b (runTrace before State.init))).log = []) ∧
    (callQueue b (runTrace before State.init)).queue = [] := by
  have hw := wellFormed_reachable before
  generalize runTrace before State.init = s at hw
  have hloop : callQueueLoop b s.queue.length 0 s = drain b s.queue s := by
    have := callQueueLoop_eq_drain b s.queue [] [] s (by simp)
    simpa using this
  have hd := draining_drain b s hw
  have hc := drain_callbacks s.allocated b s.queue s hw.queue (le_refl _)
  obtain ⟨ext, hq, hext⟩ := hd.pushed
  refine ⟨callQueue_eq_drain b s, by rw [callQueue_eq_drain]; exact hc.2, ⟨ext, by rw [hloop, hq], ?_⟩,
    rfl⟩
  intro k hk
  obtain ⟨ha, hdor⟩ := hext k hk
  have hi : Inert k.self [] (callQueue b s) := by
    rw [callQueue_eq_drain]
    exact ⟨hdor.allocated, hdor.instance_, by simp, hdor.log⟩
  exact ⟨ha, hi.log, (runTrace_atoms _ (inert_atom k.self []) later _ hi).log⟩

/-- C10 (counterexample): the queue holds the continuation of object 0, whose
callback (10) constructs a notification (object 1, callback 11) while
`checkPermission()` answers 1.  The drain with `true` calls callback 10; at the
end of the loop the queue holds both continuations; after
`Notification.callQueue` the queue is empty and nothing that belongs to object 1
is in the log: the continuation pushed during the drain is not pending. -/
theorem C10_counterexample :
    (runTrace
      [.run (.notification true 1 Options.empty (some 10)
        (.notification true 1 Options.empty (some 11) .done .done .done) .done .done)]
      State.init).queue.map (fun k => (k.self, k.callback)) = [(0, some 10)] ∧
    (callQueueLoop true 1 0 (runTrace
      [.run (.notification true 1 Options.empty (some 10)
        (.notification true 1 Options.empty (some 11) .done .done .done) .done .done)]
      State.init)).queue.map (fun k => (k.self, k.callback)) = [(0, some 10), (1, some 11)] ∧
    (callQueue true (runTrace
      [.run (.notification true 1 Options.empty (some 10)
        (.notification true 1 Options.empty (some 11) .done .done .done) .done .done)]
      State.init)).queue = [] ∧
    callbacksBelow 2 (callQueue true (runTrace
      [.run (.notification true 1 Options.empty (some 10)
        (.notification true 1 Options.empty (some 11) .done .done .done) .done .done)]
      State.init)).log = [(0, some 10, true)] ∧
    (runTrace
      [.run (.notification true 1 Options.empty (some 10)
        (.notification true 1 Options.empty (some 11) .done .done .done) .done .done),
       .tick 0 0] State.init).queue = [] ∧
    about 1 (runTrace
      [.run (.notification true 1 Options.empty (some 10)
        (.notification true 1 Options.empty (some 11) .done .done .done) .done .done),
       .tick 0 0] State.init).log = [] := by
  decide

end JqueryNotification
